import Mathlib

/-!
Verification development for the opencode-antigravity-auth plugin.

This file gives a shallow embedding, in Lean, of the plugin's core logic:

* `src/plugin/core/streaming/transformer.ts` — the SSE streaming transformer
  (`transformStreamingPayload`, `transformSseLine`,
  `cacheThinkingSignaturesFromResponse`, `createStreamingTransformer`,
  `createThoughtBuffer`) together with the signature store
  (`createSignatureStore`);
* `src/plugin/token.ts` — token refresh (`getRetryDelay`, `isRetryableError`,
  `parseOAuthErrorPayload`, `attemptTokenRefresh`, `refreshAccessToken`);
* the proactive refresh queue (`needsRefresh`, `isExpired`).

JavaScript strings are modelled as `List Char`, JS `Map`s as association
lists with insert-or-overwrite semantics, machine numbers as `Int`/`Nat`
(`Math.random` draws as exact rationals), and `JSON.parse`/`JSON.stringify`
by an executable JSON model.  External collaborators (the account store,
`parseRefreshParts`/`formatRefreshParts` from `auth.ts`, the on-disk caches)
are either dependency-injected parameters or recorded as trace events, as
noted at each definition.
-/

set_option maxHeartbeats 1000000

namespace Antigravity

/-! ## §1  JS string and Map primitives -/

/-- JS strings are modelled as lists of characters. -/
abbrev JStr := List Char

/-- Embed a Lean string literal as a `JStr`. -/
def str (s : String) : JStr := s.data

/-- The `{` character (written via its code point). -/
def lbrace : Char := Char.ofNat 123

/-- The `}` character (written via its code point). -/
def rbrace : Char := Char.ofNat 125

/-- JS `Map.get`: first (and, under the insert semantics below, only)
binding of the key. -/
def jsMapGet {κ β : Type} [DecidableEq κ] : List (κ × β) → κ → Option β
  | [], _ => none
  | (k', v) :: rest, k => if k' = k then some v else jsMapGet rest k

/-- JS `Map.set`: overwrite an existing binding in place, otherwise append
a new binding at the end (insertion order is preserved). -/
def jsMapSet {κ β : Type} [DecidableEq κ] (m : List (κ × β)) (k : κ) (v : β) :
    List (κ × β) :=
  if m.any (fun kv => decide (kv.1 = k)) then
    m.map (fun kv => if kv.1 = k then (k, v) else kv)
  else m ++ [(k, v)]

/-- JS `Map.has`. -/
def jsMapHas {κ β : Type} [DecidableEq κ] (m : List (κ × β)) (k : κ) : Bool :=
  m.any (fun kv => decide (kv.1 = k))

/-- JS `Map.delete`: remove the binding of the key (maps built by
`jsMapSet` bind each key at most once). -/
def jsMapDelete {κ β : Type} [DecidableEq κ] (m : List (κ × β)) (k : κ) :
    List (κ × β) :=
  m.filter (fun kv => decide (kv.1 ≠ k))

/-- JS `String.prototype.split('\n')` on a char list.  `splitNl [] = [[]]`,
matching `''.split('\n') === ['']`. -/
def splitNl : JStr → List JStr
  | [] => [[]]
  | c :: rest =>
    if c = '\n' then [] :: splitNl rest
    else
      match splitNl rest with
      | [] => [[c]]
      | l :: ls => (c :: l) :: ls

/-- Whitespace recognised by the model of `String.prototype.trim`
(the common ASCII subset actually appearing in SSE payloads). -/
def isTrimWs (c : Char) : Bool :=
  c = ' ' ∨ c = '\t' ∨ c = '\n' ∨ c = '\r' ∨ c = Char.ofNat 11 ∨ c = Char.ofNat 12

/-- Model of `String.prototype.trim`. -/
def jsTrim (s : JStr) : JStr :=
  ((s.dropWhile isTrimWs).reverse.dropWhile isTrimWs).reverse

/-- Model of `line.startsWith('data:')`. -/
def startsWithData (line : JStr) : Bool :=
  line.take 5 = str "data:"

/-! ## §2  JSON model (`JSON.parse` / `JSON.stringify`)

The numeric fragment of the model is restricted to integers: payloads whose
numbers carry a fraction or exponent are treated as unparseable.  No claim
in this development exercises non-integer numbers. -/

/-- JSON values as produced by `JSON.parse`. -/
inductive Json : Type where
  | null : Json
  | bool (b : Bool) : Json
  | num (n : Int) : Json
  | str (s : JStr) : Json
  | arr (xs : List Json) : Json
  | obj (fields : List (JStr × Json)) : Json

/-- JS truthiness of a JSON value (`undefined` is represented by
`Option.none` wherever a field may be absent). -/
def jsTruthy : Json → Bool
  | .null => false
  | .bool b => b
  | .num n => n ≠ 0
  | .str s => s ≠ []
  | .arr _ => true
  | .obj _ => true

/-- Truthiness of a possibly-absent (`undefined`) value. -/
def jsTruthyOpt : Option Json → Bool
  | none => false
  | some j => jsTruthy j

/-- Property access `j[k]`: `some` only on objects carrying the key
(`undefined` otherwise — in particular on arrays and primitives). -/
def getFieldJ (j : Json) (k : JStr) : Option Json :=
  match j with
  | .obj fs => jsMapGet fs k
  | _ => none

/-- Property access defaulting `undefined` to `null`; both are falsy, and
the default is only ever consumed behind a truthiness guard. -/
def getFieldJD (j : Json) (k : JStr) : Json :=
  (getFieldJ j k).getD Json.null

/-- JS `a || b` on JSON values. -/
def jsOr (a b : Json) : Json := if jsTruthy a then a else b

mutual

/-- JS `String(v)` coercion as used by string concatenation. -/
def toStringJS : Json → JStr
  | .null => str "null"
  | .bool true => str "true"
  | .bool false => str "false"
  | .num n => (toString n).data
  | .str s => s
  | .arr xs => List.intercalate (str ",") (toStringJSList xs)
  | .obj _ => str "[object Object]"

/-- Elementwise `toStringJS` (array `toString` joins with commas). -/
def toStringJSList : List Json → List JStr
  | [] => []
  | x :: xs => toStringJS x :: toStringJSList xs

end

/-- Value of a hex digit. -/
def hexVal (c : Char) : Option Nat :=
  if '0' ≤ c ∧ c ≤ '9' then some (c.toNat - 48)
  else if 'a' ≤ c ∧ c ≤ 'f' then some (c.toNat - 87)
  else if 'A' ≤ c ∧ c ≤ 'F' then some (c.toNat - 55)
  else none

/-- JSON whitespace. -/
def isJsonWs (c : Char) : Bool :=
  c = ' ' ∨ c = '\t' ∨ c = '\n' ∨ c = '\r'

/-- Drop leading JSON whitespace. -/
def skipWs (s : JStr) : JStr := s.dropWhile isJsonWs

/-- Parse the body of a JSON string literal (after the opening quote),
returning the decoded content and the input after the closing quote. -/
def parseStringBody : Nat → JStr → Option (JStr × JStr)
  | 0, _ => none
  | _, [] => none
  | f + 1, c :: rest =>
    if c = '"' then some ([], rest)
    else if c = '\\' then
      match rest with
      | [] => none
      | e :: rest₂ =>
        let esc : Option (Char × JStr) :=
          if e = '"' then some ('"', rest₂)
          else if e = '\\' then some ('\\', rest₂)
          else if e = '/' then some ('/', rest₂)
          else if e = 'b' then some (Char.ofNat 8, rest₂)
          else if e = 'f' then some (Char.ofNat 12, rest₂)
          else if e = 'n' then some ('\n', rest₂)
          else if e = 'r' then some ('\r', rest₂)
          else if e = 't' then some ('\t', rest₂)
          else if e = 'u' then
            match rest₂ with
            | h1 :: h2 :: h3 :: h4 :: rest₃ =>
              match hexVal h1, hexVal h2, hexVal h3, hexVal h4 with
              | some a, some b, some c', some d =>
                some (Char.ofNat (((a * 16 + b) * 16 + c') * 16 + d), rest₃)
              | _, _, _, _ => none
            | _ => none
          else none
        match esc with
        | some (ch, r) => (parseStringBody f r).map (fun p => (ch :: p.1, p.2))
        | none => none
    else if c.toNat < 32 then none
    else (parseStringBody f rest).map (fun p => (c :: p.1, p.2))

/-- Digit-string value. -/
def natOfDigits (ds : JStr) : Nat :=
  ds.foldl (fun a c => a * 10 + (c.toNat - 48)) 0

/-- Parse a JSON integer literal (fractions and exponents are outside the
model's numeric fragment and fail). -/
def parseNumber (s : JStr) : Option (Int × JStr) :=
  let neg : Bool := match s with | c :: _ => c = '-' | [] => false
  let s₁ := if neg then s.drop 1 else s
  let ds := s₁.takeWhile Char.isDigit
  let rest := s₁.dropWhile Char.isDigit
  if ds = [] then none
  else if 1 < ds.length ∧ ds.headD '0' = '0' then none
  else
    match rest with
    | c :: _ =>
      if c = '.' ∨ c = 'e' ∨ c = 'E' then none
      else some (if neg then -(natOfDigits ds : Int) else (natOfDigits ds : Int), rest)
    | [] => some (if neg then -(natOfDigits ds : Int) else (natOfDigits ds : Int), rest)

mutual

/-- Parse one JSON value (fuel-driven recursive descent). -/
def parseVal : Nat → JStr → Option (Json × JStr)
  | 0, _ => none
  | f + 1, s =>
    match s with
    | [] => none
    | c :: rest =>
      if c = '"' then (parseStringBody (f + 1) rest).map (fun p => (Json.str p.1, p.2))
      else if c = lbrace then parseObjFields f (skipWs rest) [] true
      else if c = '[' then parseArrItems f (skipWs rest) [] true
      else if s.take 4 = str "true" then some (Json.bool true, s.drop 4)
      else if s.take 5 = str "false" then some (Json.bool false, s.drop 5)
      else if s.take 4 = str "null" then some (Json.null, s.drop 4)
      else (parseNumber s).map (fun p => (Json.num p.1, p.2))

/-- Parse array items after `[` (and after any previous item's comma). -/
def parseArrItems : Nat → JStr → List Json → Bool → Option (Json × JStr)
  | 0, _, _, _ => none
  | f + 1, s, acc, first =>
    match s with
    | [] => none
    | c :: rest =>
      if c = ']' ∧ first then some (Json.arr acc.reverse, rest)
      else
        match parseVal f s with
        | none => none
        | some (v, after) =>
          match skipWs after with
          | ']' :: rest₂ => some (Json.arr (v :: acc).reverse, rest₂)
          | ',' :: rest₂ => parseArrItems f (skipWs rest₂) (v :: acc) false
          | _ => none

/-- Parse object fields after `{` (duplicate keys overwrite in place, as
`JSON.parse` keeps the last value while preserving first insertion order). -/
def parseObjFields : Nat → JStr → List (JStr × Json) → Bool → Option (Json × JStr)
  | 0, _, _, _ => none
  | f + 1, s, acc, first =>
    match s with
    | [] => none
    | c :: rest =>
      if c = rbrace ∧ first then some (Json.obj acc, rest)
      else if c = '"' then
        match parseStringBody (f + 1) rest with
        | none => none
        | some (key, afterKey) =>
          match skipWs afterKey with
          | ':' :: rest₂ =>
            match parseVal f (skipWs rest₂) with
            | none => none
            | some (v, afterVal) =>
              let acc₂ := jsMapSet acc key v
              match skipWs afterVal with
              | c₂ :: rest₃ =>
                if c₂ = rbrace then some (Json.obj acc₂, rest₃)
                else if c₂ = ',' then
                  match skipWs rest₃ with
                  | '"' :: _ => parseObjFields f (skipWs rest₃) acc₂ false
                  | _ => none
                else none
              | [] => none
          | _ => none
      else none

end

/-- Model of `JSON.parse`: parse one value surrounded by whitespace; any
leftover input is a syntax error (`none`). -/
def jsonParse (s : JStr) : Option Json :=
  match parseVal (4 * s.length + 16) (skipWs s) with
  | none => none
  | some (v, rest) => if skipWs rest = [] then some v else none

/-- One hex digit (lowercase), for control-character escapes. -/
def hexDigit (n : Nat) : Char :=
  if n < 10 then Char.ofNat (48 + n) else Char.ofNat (87 + n)

/-- `JSON.stringify` escaping of a single string character. -/
def escChar (c : Char) : JStr :=
  if c = '"' then ['\\', '"']
  else if c = '\\' then ['\\', '\\']
  else if c = '\n' then ['\\', 'n']
  else if c = '\r' then ['\\', 'r']
  else if c = '\t' then ['\\', 't']
  else if c = Char.ofNat 8 then ['\\', 'b']
  else if c = Char.ofNat 12 then ['\\', 'f']
  else if c.toNat < 32 then
    ['\\', 'u', '0', '0', hexDigit (c.toNat / 16), hexDigit (c.toNat % 16)]
  else [c]

/-- `JSON.stringify` of a string. -/
def quoteStr (s : JStr) : JStr :=
  '"' :: (s.map escChar).flatten ++ ['"']

mutual

/-- Model of `JSON.stringify` (no indentation, insertion order). -/
def jsonStringify : Json → JStr
  | .null => str "null"
  | .bool true => str "true"
  | .bool false => str "false"
  | .num n => (toString n).data
  | .str s => quoteStr s
  | .arr xs => '[' :: List.intercalate (str ",") (jsonStringifyList xs) ++ [']']
  | .obj fs => lbrace :: List.intercalate (str ",") (jsonStringifyFields fs) ++ [rbrace]

/-- Serialised array elements. -/
def jsonStringifyList : List Json → List JStr
  | [] => []
  | x :: xs => jsonStringify x :: jsonStringifyList xs

/-- Serialised object fields (`"key":value`). -/
def jsonStringifyFields : List (JStr × Json) → List JStr
  | [] => []
  | (k, v) :: fs => (quoteStr k ++ ':' :: jsonStringify v) :: jsonStringifyFields fs

end

/-! ## §3  Signature store and thought buffer
(`createSignatureStore`, `createThoughtBuffer`)

`createSignatureStore` wraps a bare `Map<string, SignedThinking>`; the four
operations delegate directly to the map with no TTL, size bound, or
eviction.  `createThoughtBuffer` wraps a bare `Map<number, string>` the same
way. -/

/-- `SignedThinking`: the `{text, signature}` pair stored per session key.
The `signature` field holds whatever JSON value the part carried (the TS
code casts it to `string` without checking). -/
structure SignedThinking : Type where
  text : JStr
  signature : Json

/-- The state of a store produced by `createSignatureStore`: the backing
`Map` in insertion order. -/
abbrev SigStore := List (JStr × SignedThinking)

/-- `createSignatureStore().get`. -/
def storeGet (st : SigStore) (k : JStr) : Option SignedThinking := jsMapGet st k

/-- `createSignatureStore().set`. -/
def storeSet (st : SigStore) (k : JStr) (v : SignedThinking) : SigStore :=
  jsMapSet st k v

/-- `createSignatureStore().has`. -/
def storeHas (st : SigStore) (k : JStr) : Bool := jsMapHas st k

/-- `createSignatureStore().delete`. -/
def storeDelete (st : SigStore) (k : JStr) : SigStore := jsMapDelete st k

/-- The state of a buffer produced by `createThoughtBuffer`. -/
abbrev TBuf := List (Nat × JStr)

/-- `createThoughtBuffer().get`. -/
def tbufGet (b : TBuf) (i : Nat) : Option JStr := jsMapGet b i

/-- `createThoughtBuffer().set` — note: a plain `Map.set`, overwriting the
entry at the index. -/
def tbufSet (b : TBuf) (i : Nat) (t : JStr) : TBuf := jsMapSet b i t

/-- `createThoughtBuffer().clear`. -/
def tbufClear (_ : TBuf) : TBuf := []

/-! ## §4  Streaming transformer (`transformer.ts`) -/

/-- An `onCacheSignature(sessionKey, text, signature)` invocation. -/
structure SigEvent : Type where
  sessionKey : JStr
  text : JStr
  signature : Json

/-- `StreamingCallbacks`: `onCacheSignature` is observed through the event
trace, so only its presence is modelled; the other two callbacks are pure
functions on the JSON model. -/
structure StreamingCallbacks : Type where
  hasOnCacheSignature : Bool
  onInjectDebug : Option (Json → JStr → Json)
  transformThinkingParts : Option (Json → Json)

/-- `StreamingOptions`; the TS fields are optional strings, whose absent /
empty cases are both falsy, so they are modelled as possibly-empty `JStr`. -/
structure StreamingOptions : Type where
  cacheSignatures : Bool
  signatureSessionKey : JStr
  debugText : JStr

/-- The mutable state threaded through one stream transform: the shared
signature store, the per-stream thought buffer, the per-stream debug
injection flag, and the trace of `onCacheSignature` calls. -/
structure InnerState : Type where
  store : SigStore
  tbuf : TBuf
  injected : Bool
  events : List SigEvent

/-- The `p.text || p.thinking || ''` extraction of a thought part's text. -/
def partThoughtText (p : Json) : Json :=
  jsOr (getFieldJD p (str "text")) (jsOr (getFieldJD p (str "thinking")) (Json.str []))

/-- `p.thought === true || p.type === 'thinking'`. -/
def isThoughtPart (p : Json) : Bool :=
  (match getFieldJ p (str "thought") with
   | some (Json.bool true) => true
   | _ => false) ||
  (match getFieldJ p (str "type") with
   | some (Json.str s) => decide (s = str "thinking")
   | _ => false)

/-- The thought-accumulation phase of one part of a candidate: append the
part's text to the buffer entry of the candidate index.  (From
`cacheThinkingSignaturesFromResponse`, candidates branch.) -/
def processPartText (idx : Nat) (st : InnerState) (p : Json) : InnerState :=
  if isThoughtPart p then
    let t := partThoughtText p
    if jsTruthy t then
      let current := (tbufGet st.tbuf idx).getD []
      { st with tbuf := tbufSet st.tbuf idx (current ++ toStringJS t) }
    else st
  else st

/-- Process one part of a candidate: accumulate thought text, then, if the
part carries a truthy `thoughtSignature`, pair it with the accumulated text
and store it — but only when the accumulated text is non-empty.  The
`onCacheSignature` callback fires (is traced) just before the store write. -/
def processPart (key : JStr) (hasCb : Bool) (idx : Nat) (st : InnerState) (p : Json) :
    InnerState :=
  let st₁ := processPartText idx st p
  if jsTruthyOpt (getFieldJ p (str "thoughtSignature")) then
    let fullText := (tbufGet st₁.tbuf idx).getD []
    if fullText ≠ [] then
      let signature := (getFieldJ p (str "thoughtSignature")).getD Json.null
      { st₁ with
        events := st₁.events ++ (if hasCb then [⟨key, fullText, signature⟩] else []),
        store := storeSet st₁.store key ⟨fullText, signature⟩ }
    else st₁
  else st₁

/-- Process a candidate's parts in order.  A `null` part makes the TS code
throw (`p.thought` on `null`), aborting the whole scan; the Boolean records
that exception, with the state mutated so far preserved. -/
def processParts (key : JStr) (hasCb : Bool) (idx : Nat) (st : InnerState) :
    List Json → InnerState × Bool
  | [] => (st, false)
  | Json.null :: _ => (st, true)
  | p :: rest => processParts key hasCb idx (processPart key hasCb idx st p) rest

/-- Process one candidate: skipped unless `candidate?.content` is truthy
and `content.parts` is an array. -/
def processCandidate (key : JStr) (hasCb : Bool) (idx : Nat) (st : InnerState)
    (cand : Json) : InnerState × Bool :=
  match getFieldJ cand (str "content") with
  | some contentV =>
    if jsTruthy contentV then
      match getFieldJ contentV (str "parts") with
      | some (Json.arr parts) => processParts key hasCb idx st parts
      | _ => (st, false)
    else (st, false)
  | none => (st, false)

/-- `candidates.forEach((candidate, index) => ...)`, aborting on the first
exception. -/
def processCandidates (key : JStr) (hasCb : Bool) (st : InnerState) :
    List (Nat × Json) → InnerState × Bool
  | [] => (st, false)
  | (idx, cand) :: rest =>
    match processCandidate key hasCb idx st cand with
    | (st', true) => (st', true)
    | (st', false) => processCandidates key hasCb st' rest

/-- Shape B: flat `content` block list with a running `thinkingText`
accumulator.  Note the `b.thinking || b.text` order (reversed from shape A)
and that optional chaining makes this branch exception-free. -/
def processBlocks (key : JStr) (hasCb : Bool) (st : InnerState) (acc : JStr) :
    List Json → InnerState
  | [] => st
  | b :: rest =>
    let acc₁ :=
      if (match getFieldJ b (str "type") with
          | some (Json.str s) => decide (s = str "thinking")
          | _ => false) then
        acc ++ toStringJS (jsOr (getFieldJD b (str "thinking"))
          (jsOr (getFieldJD b (str "text")) (Json.str [])))
      else acc
    let st₁ :=
      if jsTruthyOpt (getFieldJ b (str "signature")) ∧ acc₁ ≠ [] then
        let signature := (getFieldJ b (str "signature")).getD Json.null
        { st with
          events := st.events ++ (if hasCb then [⟨key, acc₁, signature⟩] else []),
          store := storeSet st.store key ⟨acc₁, signature⟩ }
      else st
    processBlocks key hasCb st₁ acc₁ rest

/-- `cacheThinkingSignaturesFromResponse(response, sessionKey, store,
thoughtBuffer, onCacheSignature)`.  Returns the updated state and whether
a `TypeError` escaped (a `null` entry in a `parts` array), in which case
shape-B scanning is skipped and the caller's `catch` takes over. -/
def cacheThinkingSignaturesFromResponse (response : Json) (key : JStr)
    (hasCb : Bool) (st : InnerState) : InnerState × Bool :=
  match response with
  | Json.obj _ | Json.arr _ =>
    let a :=
      match getFieldJ response (str "candidates") with
      | some (Json.arr cands) => processCandidates key hasCb st cands.enum
      | _ => (st, false)
    if a.2 then a
    else
      match getFieldJ response (str "content") with
      | some (Json.arr blocks) => (processBlocks key hasCb a.1 [] blocks, false)
      | _ => (a.1, false)
  | _ => (st, false)

/-- One line of `transformStreamingPayload`'s `.map` body. -/
def transformPayloadLine (tparts : Option (Json → Json)) (line : JStr) : JStr :=
  if ¬ startsWithData line then line
  else
    let json := jsTrim (line.drop 5)
    if json = [] then line
    else
      match jsonParse json with
      | none => line
      | some parsed =>
        match getFieldJ parsed (str "response") with
        | none => line
        | some respJ =>
          str "data: " ++ jsonStringify
            (match tparts with
             | some f => f respJ
             | none => respJ)

/-- `transformStreamingPayload(payload, transformThinkingParts)`: split on
newlines, rewrite each `data:` line whose payload parses and carries a
`response`, rejoin. -/
def transformStreamingPayload (payload : JStr) (tparts : Option (Json → Json)) : JStr :=
  List.intercalate (str "\n") ((splitNl payload).map (transformPayloadLine tparts))

/-- `transformSseLine(line, signatureStore, thoughtBuffer, callbacks,
options, debugState)`.  Returns the updated state and the output line; all
exceptions inside the `try` (JSON parse failures, the `null`-part
`TypeError`) fall through to returning the original line with whatever
state mutations already happened. -/
def transformSseLine (line : JStr) (cbs : StreamingCallbacks)
    (opts : StreamingOptions) (st : InnerState) : InnerState × JStr :=
  if ¬ startsWithData line then (st, line)
  else
    let json := jsTrim (line.drop 5)
    if json = [] then (st, line)
    else
      match jsonParse json with
      | none => (st, line)
      | some parsed =>
        match getFieldJ parsed (str "response") with
        | none => (st, line)
        | some respJ =>
          let a :=
            if opts.cacheSignatures ∧ opts.signatureSessionKey ≠ [] then
              cacheThinkingSignaturesFromResponse respJ opts.signatureSessionKey
                cbs.hasOnCacheSignature st
            else (st, false)
          if a.2 then (a.1, line)
          else
            let d : Json × InnerState :=
              if opts.debugText ≠ [] ∧ cbs.onInjectDebug.isSome ∧ ¬ a.1.injected then
                ((cbs.onInjectDebug.map (fun g => g respJ opts.debugText)).getD respJ,
                 { a.1 with injected := true })
              else (respJ, a.1)
            let out :=
              match cbs.transformThinkingParts with
              | some f => f d.1
              | none => d.1
            (d.2, str "data: " ++ jsonStringify out)

/-! ## §5  UTF-8 codec (`TextDecoder`/`TextEncoder`) and the chunked
stream runner (`createStreamingTransformer`). -/

/-- UTF-8 encoding of one scalar value. -/
def utf8EncodeChar (c : Char) : List Nat :=
  let v := c.toNat
  if v < 128 then [v]
  else if v < 2048 then [192 + v / 64, 128 + v % 64]
  else if v < 65536 then [224 + v / 4096, 128 + (v / 64) % 64, 128 + v % 64]
  else [240 + v / 262144, 128 + (v / 4096) % 64, 128 + (v / 64) % 64, 128 + v % 64]

/-- `TextEncoder.encode` on a char list. -/
def utf8Encode (s : JStr) : List Nat :=
  (s.map utf8EncodeChar).flatten

/-- Byte length of a UTF-8 sequence as announced by its lead byte. -/
def utf8LeadLen (b : Nat) : Nat :=
  if b < 128 then 1 else if b < 224 then 2 else if b < 240 then 3 else 4

/-- The replacement character U+FFFD. -/
def replChar : Char := Char.ofNat 65533

/-- Decode one complete UTF-8 sequence (exactly the bytes of one scalar). -/
def utf8DecOne : List Nat → Char
  | [b] => if b < 128 then Char.ofNat b else replChar
  | [b0, b1] => Char.ofNat ((b0 - 192) * 64 + (b1 - 128))
  | [b0, b1, b2] => Char.ofNat (((b0 - 224) * 64 + (b1 - 128)) * 64 + (b2 - 128))
  | [b0, b1, b2, b3] =>
    Char.ofNat ((((b0 - 240) * 64 + (b1 - 128)) * 64 + (b2 - 128)) * 64 + (b3 - 128))
  | _ => replChar

/-- Streaming `TextDecoder.decode(chunk, {stream: true})`: decode every
complete scalar, withholding a trailing incomplete sequence as the new
decoder state. -/
def utf8DecodeLoop : List Nat → JStr × List Nat
  | [] => ([], [])
  | b :: rest =>
    let L := utf8LeadLen b
    if rest.length + 1 < L then ([], b :: rest)
    else
      let r := utf8DecodeLoop (rest.drop (L - 1))
      (utf8DecOne (b :: rest.take (L - 1)) :: r.1, r.2)
  termination_by l => l.length
  decreasing_by
    simp only [List.length_drop, List.length_cons]
    omega

/-- Final `TextDecoder.decode()`: any withheld incomplete sequence becomes
a replacement character. -/
def utf8DecodeEnd (pend : List Nat) : JStr :=
  if pend.isEmpty then [] else [replChar]

/-- The per-chunk/decoder/carry-over state of one streaming transform,
generic in the inner per-line state `σ`. -/
structure StreamState (σ : Type) : Type where
  pend : List Nat
  buf : JStr
  inner : σ

/-- One `transform(chunk, controller)` step of `createStreamingTransformer`:
decode, append to the carry-over buffer, split on newlines, hold back the
final segment, and emit every complete line through the per-line transform
(re-encoded with a trailing newline). -/
def feedChunk {σ : Type} (F : σ → JStr → σ × JStr) (st : StreamState σ)
    (chunk : List Nat) : StreamState σ × List Nat :=
  let d := utf8DecodeLoop (st.pend ++ chunk)
  let text := st.buf ++ d.1
  let parts := splitNl text
  let step :=
    parts.dropLast.foldl
      (fun (acc : σ × List Nat) line =>
        let r := F acc.1 line
        (r.1, acc.2 ++ utf8Encode (r.2 ++ ['\n'])))
      (st.inner, [])
  (⟨d.2, parts.getLastD [], step.1⟩, step.2)

/-- The `flush(controller)` step: flush the decoder, and if the carry-over
buffer is non-empty, process it as a final line (no trailing newline). -/
def flushStream {σ : Type} (F : σ → JStr → σ × JStr) (st : StreamState σ) :
    σ × List Nat :=
  let text := st.buf ++ utf8DecodeEnd st.pend
  if text = [] then (st.inner, [])
  else
    let r := F st.inner text
    (r.1, utf8Encode r.2)

/-- Feed a list of chunks through a fresh transformer, then flush,
concatenating all emitted bytes. -/
def runStream {σ : Type} (F : σ → JStr → σ × JStr) (inner₀ : σ)
    (chunks : List (List Nat)) : List Nat :=
  let fin :=
    chunks.foldl
      (fun (acc : StreamState σ × List Nat) ch =>
        let r := feedChunk F acc.1 ch
        (r.1, acc.2 ++ r.2))
      (⟨[], [], inner₀⟩, [])
  fin.2 ++ (flushStream F fin.1).2

/-- `createStreamingTransformer(signatureStore, callbacks, options)` applied
to a chunk sequence: fresh decoder state, carry-over buffer, thought buffer
and debug flag; the signature store is the one passed in. -/
def createStreamingTransformerRun (store₀ : SigStore) (cbs : StreamingCallbacks)
    (opts : StreamingOptions) (chunks : List (List Nat)) : List Nat :=
  runStream (fun st line => transformSseLine line cbs opts st)
    ⟨store₀, [], false, []⟩ chunks

/-! ## §6  Token refresh (`token.ts`)

External collaborators (`parseRefreshParts`/`formatRefreshParts` from
`auth.ts`, the auth/project-context caches from `cache.ts`/`project.ts`)
are modelled as injected functions and as trace events.  Time
(`Date.now()`), the network (`fetch`) and `Math.random()` are oracles
indexed by attempt number. -/

/-- `MAX_RETRIES`. -/
def MAX_RETRIES : Nat := 3

/-- `INITIAL_RETRY_DELAY_MS`. -/
def INITIAL_RETRY_DELAY_MS : ℚ := 100

/-- `MAX_RETRY_DELAY_MS`. -/
def MAX_RETRY_DELAY_MS : ℚ := 2000

/-- `getRetryDelay(attempt)` with the `Math.random()` draw made explicit:
exponential delay, capped, then `±20%` jitter, floored. -/
def getRetryDelay (attempt : Nat) (rand : ℚ) : ℤ :=
  let exponentialDelay : ℚ := INITIAL_RETRY_DELAY_MS * 2 ^ attempt
  let cappedDelay : ℚ := min exponentialDelay MAX_RETRY_DELAY_MS
  let jitter : ℚ := cappedDelay * (0.8 + rand * 0.4)
  ⌊jitter⌋

/-- `RefreshParts` (decoded refresh blob; `auth.ts` owns the format).  The
fields hold whatever the external parse produced, so they are JSON-valued;
`refreshToken` may be absent. -/
structure RefreshParts : Type where
  refreshToken : Option Json
  projectId : Option Json
  managedProjectId : Option Json

/-- `OAuthAuthDetails`: access token, absolute expiry (epoch ms),
serialized refresh blob. -/
structure OAuthAuthDetails : Type where
  access : JStr
  expires : Int
  refresh : JStr

/-- The classified `AntigravityTokenRefreshError`.  `code`/`description`
hold the tolerantly-parsed payload fields (JSON-valued: the TS code casts
without checking). -/
structure TokenError : Type where
  message : JStr
  code : Option Json
  description : Option Json
  status : Int
  statusText : JStr

/-- Errors that can escape one refresh attempt: the classified OAuth error,
a `fetch` transport failure (`TypeError`), or a `response.json()` failure
(`SyntaxError`). -/
inductive JsError : Type where
  | classified (e : TokenError) : JsError
  | network : JsError
  | badJson : JsError

/-- Strict equality `code === s` between a possibly-absent JSON value and a
string literal. -/
def codeIs (c : Option Json) (s : JStr) : Bool :=
  match c with
  | some (Json.str t) => t = s
  | _ => false

/-- `isRetryableError(error)`: classified `invalid_grant`/`invalid_client`
never retried; classified 5xx/429 retried; transport failures retried;
everything else not. -/
def isRetryableError : JsError → Bool
  | .classified e =>
    if codeIs e.code (str "invalid_grant") || codeIs e.code (str "invalid_client") then
      false
    else decide (500 ≤ e.status) || decide (e.status = 429)
  | .network => true
  | .badJson => false

/-- `parseOAuthErrorPayload(text)`: tolerant multi-shape OAuth error
decoding, returning `(code, description)`. -/
def parseOAuthErrorPayload (text : Option JStr) : Option Json × Option Json :=
  match text with
  | none => (none, none)
  | some t =>
    if t = [] then (none, none)
    else
      match jsonParse t with
      | none => (none, some (Json.str t))
      | some payload =>
        match payload with
        | Json.obj _ | Json.arr _ =>
          let errF := getFieldJ payload (str "error")
          let descF := getFieldJ payload (str "error_description")
          match errF with
          | some (Json.str s) =>
            let code := some (Json.str s)
            if jsTruthyOpt descF then (code, descF) else (code, none)
          | some e =>
            if jsTruthy e &&
               (match e with | Json.obj _ | Json.arr _ => true | _ => false) then
              let code :=
                match getFieldJ e (str "status") with
                | some Json.null => getFieldJ e (str "code")
                | some v => some v
                | none => getFieldJ e (str "code")
              let msgF := getFieldJ e (str "message")
              if ¬ jsTruthyOpt descF ∧ jsTruthyOpt msgF then (code, msgF)
              else if jsTruthyOpt descF then (code, descF)
              else if jsTruthyOpt msgF then (code, msgF)
              else (code, none)
            else
              if jsTruthyOpt descF then (none, descF) else (none, none)
          | none =>
            if jsTruthyOpt descF then (none, descF) else (none, none)
        | _ => (none, some (Json.str t))

/-- One HTTP response from the token endpoint.  `body` is the raw text
(`none` models `response.text()` itself failing); the success path parses
it as JSON. -/
structure HttpResp : Type where
  ok : Bool
  status : Int
  statusText : JStr
  body : Option JStr

/-- Outcome of one `fetch`: a transport failure or a response. -/
inductive FetchOutcome : Type where
  | fetchFail : FetchOutcome
  | resp (r : HttpResp) : FetchOutcome

/-- Calls into the external cache collaborators, recorded as a trace. -/
inductive CacheEvent : Type where
  | invalidateProjectContext (refreshBlob : JStr) : CacheEvent
  | clearCachedAuth (refreshBlob : JStr) : CacheEvent
  | storeCachedAuth (auth : OAuthAuthDetails) : CacheEvent

/-- The classified error `attemptTokenRefresh` builds from a non-ok
response: tolerant payload parse, `[code, description ?? errorText]`
joined into the message. -/
def classifiedErrorOfResp (r : HttpResp) : TokenError :=
  let parsed := parseOAuthErrorPayload r.body
  let code := parsed.1
  let description := parsed.2
  let descOrText : Option Json :=
    match description with
    | some d => some d
    | none => r.body.map Json.str
  let details :=
    List.intercalate (str ": ")
      (((([code, descOrText].filter (fun o => jsTruthyOpt o)).map
        (fun o => toStringJS (o.getD Json.null)))))
  let baseMessage :=
    str "Antigravity token refresh failed (" ++ (toString r.status).data ++
      str " " ++ r.statusText ++ str ")"
  let message := if details ≠ [] then baseMessage ++ str " - " ++ details else baseMessage
  ⟨message, code, descOrText, r.status, r.statusText⟩

/-- `Modelled from the spec:` the absolute expiry computation
(`calculateTokenExpiry` lives in the external `auth.ts`, absent from the
sources): "Compute absolute expiry as issue-time-of-call + `expires_in`
seconds", with `expires` in epoch milliseconds. -/
def calculateTokenExpiry (startTime : Int) (expiresIn : Int) : Int :=
  startTime + expiresIn * 1000

/-- `attemptTokenRefresh(parts, auth)` given the fetch outcome and the
`Date.now()` reading at call time.  Returns the cache-collaborator calls it
made and either the refreshed details or the error it threw. -/
def attemptTokenRefresh (outcome : FetchOutcome) (parts : RefreshParts)
    (auth : OAuthAuthDetails) (startTime : Int)
    (format : RefreshParts → JStr) : List CacheEvent × Except JsError OAuthAuthDetails :=
  match outcome with
  | .fetchFail => ([], .error .network)
  | .resp r =>
    if r.ok then
      match (match r.body with | some b => jsonParse b | none => none) with
      | none => ([], .error .badJson)
      | some payload =>
        let accessF := getFieldJ payload (str "access_token")
        if !jsTruthyOpt accessF ||
           (match accessF with | some (Json.str _) => false | _ => true) then
          ([], .error (.classified
            ⟨str "Token refresh response missing access_token", none, none,
             500, str "Invalid Response"⟩))
        else
          let access := match accessF with | some (Json.str s) => s | _ => []
          let expiresIn : Int :=
            match getFieldJ payload (str "expires_in") with
            | some (Json.num n) => if n ≤ 0 then 3600 else n
            | _ => 3600
          let refreshedParts : RefreshParts :=
            { refreshToken :=
                match getFieldJ payload (str "refresh_token") with
                | some Json.null => parts.refreshToken
                | some v => some v
                | none => parts.refreshToken,
              projectId := parts.projectId,
              managedProjectId := parts.managedProjectId }
          ([], .ok { auth with
            access := access,
            expires := calculateTokenExpiry startTime expiresIn,
            refresh := format refreshedParts })
    else
      let e := classifiedErrorOfResp r
      let events :=
        if codeIs e.code (str "invalid_grant") then
          [CacheEvent.invalidateProjectContext auth.refresh,
           CacheEvent.clearCachedAuth auth.refresh]
        else []
      (events, .error (.classified e))

/-- The dependency-injected environment of `refreshAccessToken`: the
external `auth.ts` blob codec, and per-attempt oracles for the network,
`Date.now()` and `Math.random()`. -/
structure RefreshEnv : Type where
  parseParts : JStr → RefreshParts
  format : RefreshParts → JStr
  outcomes : Nat → FetchOutcome
  startTimes : Nat → Int
  jitters : Nat → ℚ

/-- Observable trace of one `refreshAccessToken` call. -/
structure RefreshTrace : Type where
  attempts : Nat
  sleeps : List ℤ
  events : List CacheEvent

/-- Result of `refreshAccessToken`: a refreshed credential, `undefined`
(no-op / swallowed unexpected error), or a raised error. -/
inductive RefreshResult : Type where
  | success (a : OAuthAuthDetails) : RefreshResult
  | noResult : RefreshResult
  | raised (e : JsError) : RefreshResult

/-- The retry loop of `refreshAccessToken` (`for attempt in 0..=MAX_RETRIES`).
`fuel` only bounds the recursion; the loop itself exits through the
`attempt >= MAX_RETRIES` check exactly as in the source. -/
def refreshLoop (env : RefreshEnv) (parts : RefreshParts) (auth : OAuthAuthDetails) :
    Nat → Nat → RefreshTrace → RefreshTrace × RefreshResult
  | 0, _, tr => (tr, .noResult)
  | fuel + 1, attempt, tr =>
    let a := attemptTokenRefresh (env.outcomes attempt) parts auth
      (env.startTimes attempt) env.format
    let tr₁ : RefreshTrace :=
      { tr with attempts := tr.attempts + 1, events := tr.events ++ a.1 }
    match a.2 with
    | .ok updatedAuth =>
      ({ tr₁ with events := tr₁.events ++
          [CacheEvent.storeCachedAuth updatedAuth,
           CacheEvent.invalidateProjectContext auth.refresh] },
       .success updatedAuth)
    | .error e =>
      if ¬ isRetryableError e then
        match e with
        | .classified _ => (tr₁, .raised e)
        | _ => (tr₁, .noResult)
      else if MAX_RETRIES ≤ attempt then
        match e with
        | .classified _ => (tr₁, .raised e)
        | _ => (tr₁, .noResult)
      else
        let delay := getRetryDelay attempt (env.jitters attempt)
        refreshLoop env parts auth fuel (attempt + 1)
          { tr₁ with sleeps := tr₁.sleeps ++ [delay] }

/-- `refreshAccessToken(auth, client, providerId)`: decode the blob, bail
out (`undefined`) when no refresh token is present, else run the bounded
retry loop. -/
def refreshAccessToken (env : RefreshEnv) (auth : OAuthAuthDetails) :
    RefreshTrace × RefreshResult :=
  let parts := env.parseParts auth.refresh
  if ¬ jsTruthyOpt parts.refreshToken then (⟨0, [], []⟩, .noResult)
  else refreshLoop env parts auth (MAX_RETRIES + 1) 0 ⟨0, [], []⟩

/-! ## §7  Proactive refresh queue (`needsRefresh` / `isExpired`) -/

/-- `ProactiveRefreshConfig`. -/
structure ProactiveRefreshConfig : Type where
  enabled : Bool
  bufferSeconds : Int
  checkIntervalSeconds : Int

/-- `DEFAULT_PROACTIVE_REFRESH_CONFIG`. -/
def DEFAULT_PROACTIVE_REFRESH_CONFIG : ProactiveRefreshConfig :=
  ⟨true, 1800, 300⟩

/-- The slice of `ManagedAccount` consulted here: the optional absolute
expiry in epoch milliseconds. -/
structure ManagedAccount : Type where
  expires : Option Int

/-- `ProactiveRefreshQueue.needsRefresh(account)`.  The guard is the JS
truthiness test `!account.expires`, which treats an expiry of `0` exactly
like an absent one. -/
def needsRefresh (cfg : ProactiveRefreshConfig) (now : Int)
    (account : ManagedAccount) : Bool :=
  match account.expires with
  | none => false
  | some e =>
    if e = 0 then false
    else
      let bufferMs := cfg.bufferSeconds * 1000
      let refreshThreshold := now + bufferMs
      decide (e ≤ refreshThreshold)

/-- `ProactiveRefreshQueue.isExpired(account)` (same truthiness guard). -/
def isExpired (now : Int) (account : ManagedAccount) : Bool :=
  match account.expires with
  | none => false
  | some e => if e = 0 then false else decide (e ≤ now)

/-! ## §8  Auxiliary definitions for the verification statements -/

/-- An operation against one `createSignatureStore` instance. -/
inductive SigOp : Type where
  | setOp (k : JStr) (v : SignedThinking) : SigOp
  | delOp (k : JStr) : SigOp
  | getOp (k : JStr) : SigOp
  | hasOp (k : JStr) : SigOp

/-- Effect of one store operation (`get`/`has` do not change the state). -/
def applySigOp (st : SigStore) : SigOp → SigStore
  | .setOp k v => storeSet st k v
  | .delOp k => storeDelete st k
  | .getOp _ => st
  | .hasOp _ => st

/-- Replay a sequence of store operations. -/
def applySigOps (st : SigStore) : List SigOp → SigStore
  | [] => st
  | op :: rest => applySigOps (applySigOp st op) rest

/-- Fold the last-writer-wins value of `k` over an operation sequence. -/
def lastWriteFold (k : JStr) (acc : Option SignedThinking) :
    List SigOp → Option SignedThinking
  | [] => acc
  | op :: rest =>
    lastWriteFold k
      (match op with
       | .setOp k' v => if k' = k then some v else acc
       | .delOp k' => if k' = k then none else acc
       | .getOp _ => acc
       | .hasOp _ => acc)
      rest

/-- Reference last-writer-wins semantics of an operation sequence: the
value of the key is that of the last `set` not followed by a `delete`. -/
def lastWriteLookup (ops : List SigOp) (k : JStr) : Option SignedThinking :=
  lastWriteFold k none ops

/-- Number of entries a store holds under one session key. -/
def countKey (st : SigStore) (k : JStr) : Nat :=
  (st.filter (fun kv => decide (kv.1 = k))).length

/-- A `get` performed `ageMs` milliseconds after the last write.  The
closure created by `createSignatureStore` captures only the backing `Map`
— no timestamps, timers, or clock reads — so elapsed wall-clock time
cannot enter the semantics and the age argument is inert. -/
def storeGetAfter (st : SigStore) (_ageMs : ℤ) (k : JStr) : Option SignedThinking :=
  storeGet st k

/-- `needsRefresh` as claimed: true iff `expires` is set (present at all)
and `now + bufferSeconds*1000 >= expires`. -/
def needsRefreshClaim (cfg : ProactiveRefreshConfig) (now : Int)
    (account : ManagedAccount) : Prop :=
  ∃ e, account.expires = some e ∧ e ≤ now + cfg.bufferSeconds * 1000

/-- `isExpired` as claimed: true iff `expires` is set and `now >= expires`. -/
def isExpiredClaim (now : Int) (account : ManagedAccount) : Prop :=
  ∃ e, account.expires = some e ∧ e ≤ now

/-- `backoffDelay(attempt)` as the spec words it: exponential growth from
the initial delay, capped at the maximum delay, perturbed by `±20%`
uniform jitter (`0.8 + 0.4·rand`), floored to milliseconds. -/
def backoffDelaySpec (attempt : Nat) (rand : ℚ) : ℤ :=
  ⌊(min (100 * 2 ^ attempt) 2000 : ℚ) * (0.8 + 0.4 * rand)⌋

/-- Expected value of the jittered delay over the uniform jitter draw
(`E[0.8 + 0.4·U] = 1`): the capped exponential delay itself. -/
def expectedBackoffDelay (attempt : Nat) : ℚ :=
  min (100 * 2 ^ attempt) 2000

/-- A thought part carrying `thought: true` and the given text. -/
def thoughtPartJ (t : JStr) : Json :=
  Json.obj [(str "thought", Json.bool true), (str "text", Json.str t)]

/-- A part carrying only a continuation signature. -/
def sigPartJ (sig : JStr) : Json :=
  Json.obj [(str "thoughtSignature", Json.str sig)]

/-- A candidate with the given parts. -/
def candJ (parts : List Json) : Json :=
  Json.obj [(str "content", Json.obj [(str "parts", Json.arr parts)])]

/-- The C6 scenario response: candidate 0 thinks "A" then "B" then signs;
candidate 1 carries no thinking. -/
def c6Response (sig : JStr) : Json :=
  Json.obj [(str "candidates", Json.arr
    [candJ [thoughtPartJ (str "A"), thoughtPartJ (str "B"), sigPartJ sig],
     candJ [Json.obj [(str "text", Json.str (str "hi"))]]])]

/-- A response whose thinking lives entirely in candidate 1: processing it
must reach past candidate 0. -/
def c6ResponseSecond (sig : JStr) : Json :=
  Json.obj [(str "candidates", Json.arr
    [candJ [Json.obj [(str "text", Json.str (str "hi"))]],
     candJ [thoughtPartJ (str "C"), sigPartJ sig]])]

/-- A fixed account/credential for concrete runs. -/
def auth0 : OAuthAuthDetails := ⟨str "acc", 0, str "refblob"⟩

/-- A bare HTTP 503 with an unreadable body. -/
def resp503 : HttpResp := ⟨false, 503, str "Service Unavailable", none⟩

/-- An endpoint that answers plain 503 on every attempt. -/
def env503 : RefreshEnv :=
  { parseParts := fun _ => ⟨some (Json.str (str "tok")), none, none⟩,
    format := fun _ => str "blob",
    outcomes := fun _ => .resp resp503,
    startTimes := fun _ => 0,
    jitters := fun _ => 0 }

/-- An HTTP 503 whose body classifies as `invalid_grant`. -/
def resp503InvalidGrant : HttpResp :=
  ⟨false, 503, str "Service Unavailable",
   some (str "\x7b\"error\":\"invalid_grant\"\x7d")⟩

/-- An endpoint that answers 503-with-`invalid_grant` on every attempt. -/
def env503InvalidGrant : RefreshEnv :=
  { env503 with outcomes := fun _ => .resp resp503InvalidGrant }

/-- An HTTP 400 `invalid_grant` response. -/
def respInvalidGrant : HttpResp :=
  ⟨false, 400, str "Bad Request",
   some (str "\x7b\"error\":\"invalid_grant\"\x7d")⟩

/-- An endpoint that answers `invalid_grant` on every attempt. -/
def envInvalidGrant : RefreshEnv :=
  { env503 with outcomes := fun _ => .resp respInvalidGrant }

/-! ## §9  Shared lemmas about the `Map` model -/

/-- Rewriting every `k`-keyed entry does not affect lookups of other keys. -/
theorem jsMapGet_map_ne {κ β : Type} [DecidableEq κ] (m : List (κ × β)) (k k' : κ)
    (v : β) (h : k ≠ k') :
    jsMapGet (m.map (fun kv => if kv.1 = k then (k, v) else kv)) k' = jsMapGet m k' := by
  induction m with
  | nil => rfl
  | cons a rest ih =>
    obtain ⟨ka, va⟩ := a
    rw [List.map_cons]
    have hfst : ((ka, va) : κ × β).1 = ka := rfl
    rw [hfst]
    by_cases hk : ka = k
    · rw [if_pos hk]
      show (if k = k' then some v else _) = if ka = k' then some va else _
      rw [if_neg h, if_neg (fun e => h (hk ▸ e)), ih]
    · rw [if_neg hk]
      show (if ka = k' then some va else _) = if ka = k' then some va else _
      by_cases hk' : ka = k'
      · rw [if_pos hk', if_pos hk']
      · rw [if_neg hk', if_neg hk', ih]

/-- If the key occurs, rewriting every `k`-keyed entry makes its lookup the
new value. -/
theorem jsMapGet_map_hit {κ β : Type} [DecidableEq κ] (m : List (κ × β)) (k : κ)
    (v : β) (h : m.any (fun kv => decide (kv.1 = k)) = true) :
    jsMapGet (m.map (fun kv => if kv.1 = k then (k, v) else kv)) k = some v := by
  induction m with
  | nil => simp at h
  | cons a rest ih =>
    obtain ⟨ka, va⟩ := a
    rw [List.map_cons]
    have hfst : ((ka, va) : κ × β).1 = ka := rfl
    rw [hfst]
    by_cases hk : ka = k
    · rw [if_pos hk]
      show (if k = k then some v else _) = some v
      rw [if_pos rfl]
    · rw [if_neg hk]
      show (if ka = k then some va else _) = some v
      rw [if_neg hk]
      simp only [List.any_cons, Bool.or_eq_true, decide_eq_true_eq, hfst] at h
      rcases h with h | h
      · exact absurd h hk
      · exact ih h

/-- Appending a fresh binding: lookups of the new key find it, others are
unchanged. -/
theorem jsMapGet_append_new {κ β : Type} [DecidableEq κ] (m : List (κ × β))
    (k k' : κ) (v : β) (h : m.any (fun kv => decide (kv.1 = k)) = false) :
    jsMapGet (m ++ [(k, v)]) k' = if k = k' then some v else jsMapGet m k' := by
  induction m with
  | nil =>
    show (if k = k' then some v else none) = if k = k' then some v else none
    rfl
  | cons a rest ih =>
    obtain ⟨ka, va⟩ := a
    have hfst : ((ka, va) : κ × β).1 = ka := rfl
    simp only [List.any_cons, Bool.or_eq_false_iff, decide_eq_false_iff_not, hfst] at h
    rw [List.cons_append]
    show (if ka = k' then some va else jsMapGet (rest ++ [(k, v)]) k')
      = if k = k' then some v else if ka = k' then some va else jsMapGet rest k'
    by_cases hk' : ka = k'
    · rw [if_pos hk', if_neg (fun e => h.1 (hk' ▸ e.symm)), if_pos hk']
    · rw [if_neg hk', ih h.2]
      by_cases hkk : k = k'
      · rw [if_pos hkk, if_pos hkk]
      · rw [if_neg hkk, if_neg hkk, if_neg hk']

/-- `Map.set` then `Map.get`: the set key reads back the new value, all
other keys are untouched. -/
theorem jsMapGet_set {κ β : Type} [DecidableEq κ] (m : List (κ × β)) (k k' : κ)
    (v : β) :
    jsMapGet (jsMapSet m k v) k' = if k = k' then some v else jsMapGet m k' := by
  unfold jsMapSet
  by_cases hAny : m.any (fun kv => decide (kv.1 = k)) = true
  · rw [if_pos hAny]
    by_cases hk : k = k'
    · subst hk
      rw [if_pos rfl, jsMapGet_map_hit m k v hAny]
    · rw [if_neg hk, jsMapGet_map_ne m k k' v hk]
  · rw [if_neg hAny, jsMapGet_append_new m k k' v (Bool.eq_false_iff.mpr hAny)]

/-- `Map.delete` then `Map.get`: the deleted key is gone, all other keys
are untouched. -/
theorem jsMapGet_delete {κ β : Type} [DecidableEq κ] (m : List (κ × β)) (k k' : κ) :
    jsMapGet (jsMapDelete m k) k' = if k = k' then none else jsMapGet m k' := by
  induction m with
  | nil =>
    show (none : Option β) = if k = k' then none else none
    by_cases hkk : k = k'
    · rw [if_pos hkk]
    · rw [if_neg hkk]
  | cons a rest ih =>
    obtain ⟨ka, va⟩ := a
    have hfst : ((ka, va) : κ × β).1 = ka := rfl
    unfold jsMapDelete at ih ⊢
    rw [List.filter_cons]
    by_cases hk : ka = k
    · rw [if_neg (by simp [hfst, hk])]
      rw [ih]
      by_cases hkk : k = k'
      · rw [if_pos hkk, if_pos hkk]
      · rw [if_neg hkk, if_neg hkk]
        show jsMapGet rest k' = if ka = k' then some va else jsMapGet rest k'
        rw [if_neg (fun e => hkk (hk ▸ e))]
    · rw [if_pos (by simp [hfst, hk])]
      show (if ka = k' then some va else jsMapGet (List.filter _ rest) k')
        = if k = k' then none else if ka = k' then some va else jsMapGet rest k'
      by_cases hk' : ka = k'
      · rw [if_pos hk', if_neg (fun e : k = k' => hk (hk'.trans e.symm)), if_pos hk']
      · rw [if_neg hk', ih]
        by_cases hkk : k = k'
        · rw [if_pos hkk, if_pos hkk]
        · rw [if_neg hkk, if_neg hkk, if_neg hk']

/-- A key that never occurs filters to nothing. -/
theorem countKey_eq_zero {st : SigStore} {k : JStr}
    (h : st.any (fun kv => decide (kv.1 = k)) = false) : countKey st k = 0 := by
  induction st with
  | nil => rfl
  | cons a rest ih =>
    obtain ⟨ka, va⟩ := a
    have hfst : ((ka, va) : JStr × SignedThinking).1 = ka := rfl
    simp only [List.any_cons, Bool.or_eq_false_iff, decide_eq_false_iff_not, hfst] at h
    simp only [countKey, List.filter_cons, hfst]
    rw [if_neg (by simpa using h.1)]
    exact ih h.2

/-- Overwriting a key in place preserves every per-key entry count. -/
theorem countKey_map_replace (st : SigStore) (k k' : JStr) (v : SignedThinking) :
    countKey (st.map (fun kv => if kv.1 = k then (k, v) else kv)) k' = countKey st k' := by
  induction st with
  | nil => rfl
  | cons a rest ih =>
    obtain ⟨ka, va⟩ := a
    have hfst : ((ka, va) : JStr × SignedThinking).1 = ka := rfl
    rw [List.map_cons, hfst]
    have ihl := ih
    simp only [countKey] at ihl ⊢
    by_cases hk : ka = k
    · subst hk
      rw [if_pos rfl]
      by_cases hk' : ka = k'
      · subst hk'
        simp [List.filter_cons, ihl]
      · simp [List.filter_cons, hk', ihl]
    · rw [if_neg hk]
      by_cases hk' : ka = k'
      · subst hk'
        simp [List.filter_cons, hk, ihl]
      · simp [List.filter_cons, hk', hk, ihl]

/-- Appending one binding adds one to its key's count and nothing else. -/
theorem countKey_append (st : SigStore) (k k' : JStr) (v : SignedThinking) :
    countKey (st ++ [(k, v)]) k' = countKey st k' + (if k = k' then 1 else 0) := by
  simp only [countKey, List.filter_append, List.length_append, List.filter_cons,
    List.filter_nil]
  by_cases hkk : k = k'
  · rw [if_pos (by simpa using hkk), if_pos hkk]
    rfl
  · rw [if_neg (by simpa using hkk), if_neg hkk]
    rfl

/-- `set` keeps every session's entry count at most one. -/
theorem countKey_set_le {st : SigStore} (h : ∀ k', countKey st k' ≤ 1)
    (k : JStr) (v : SignedThinking) (k' : JStr) :
    countKey (storeSet st k v) k' ≤ 1 := by
  unfold storeSet jsMapSet
  by_cases hAny : st.any (fun kv => decide (kv.1 = k)) = true
  · rw [if_pos hAny, countKey_map_replace]
    exact h k'
  · rw [if_neg hAny, countKey_append]
    by_cases hkk : k = k'
    · rw [if_pos hkk]
      rw [countKey_eq_zero (hkk ▸ Bool.eq_false_iff.mpr hAny)]
    · rw [if_neg hkk]
      simpa using h k'

/-- `delete` never increases an entry count. -/
theorem countKey_delete_le (st : SigStore) (k k' : JStr) :
    countKey (storeDelete st k) k' ≤ countKey st k' := by
  unfold storeDelete jsMapDelete countKey
  exact List.Sublist.length_le (List.Sublist.filter _ (List.filter_sublist st))

/-- Replaying operations against a store agrees with folding the
last-writer-wins semantics from the store's current lookup. -/
theorem applySigOps_get (ops : List SigOp) (st : SigStore) (k : JStr) :
    storeGet (applySigOps st ops) k = lastWriteFold k (storeGet st k) ops := by
  induction ops generalizing st with
  | nil => rfl
  | cons op rest ih =>
    cases op with
    | setOp k' v =>
      show storeGet (applySigOps (storeSet st k' v) rest) k = _
      rw [ih]
      show _ = lastWriteFold k (if k' = k then some v else storeGet st k) rest
      unfold storeGet storeSet
      rw [jsMapGet_set]
    | delOp k' =>
      show storeGet (applySigOps (storeDelete st k') rest) k = _
      rw [ih]
      show _ = lastWriteFold k (if k' = k then none else storeGet st k) rest
      unfold storeGet storeDelete
      rw [jsMapGet_delete]
    | getOp k' => exact ih st
    | hasOp k' => exact ih st

/-- Replaying operations preserves the at-most-one-entry-per-session
invariant. -/
theorem applySigOps_countKey_le (ops : List SigOp) (st : SigStore)
    (h : ∀ k, countKey st k ≤ 1) : ∀ k, countKey (applySigOps st ops) k ≤ 1 := by
  induction ops generalizing st with
  | nil => exact h
  | cons op rest ih =>
    cases op with
    | setOp k' v => exact ih (storeSet st k' v) (countKey_set_le h k' v)
    | delOp k' =>
      exact ih (storeDelete st k') (fun k => le_trans (countKey_delete_le st k' k) (h k))
    | getOp k' => exact ih st h
    | hasOp k' => exact ih st h

/-- The classified code is the tolerantly-parsed payload code. -/
theorem classifiedErrorOfResp_code (r : HttpResp) :
    (classifiedErrorOfResp r).code = (parseOAuthErrorPayload r.body).1 := rfl

/-- The classified status is the HTTP status. -/
theorem classifiedErrorOfResp_status (r : HttpResp) :
    (classifiedErrorOfResp r).status = r.status := rfl

/-- A non-ok response makes one attempt throw the classified error, purging
the caches first exactly when the classified code is `invalid_grant`. -/
theorem attemptTokenRefresh_err (r : HttpResp) (hok : r.ok = false)
    (parts : RefreshParts) (auth : OAuthAuthDetails) (t : Int)
    (fmt : RefreshParts → JStr) :
    attemptTokenRefresh (.resp r) parts auth t fmt =
      ((if codeIs (classifiedErrorOfResp r).code (str "invalid_grant") then
          [CacheEvent.invalidateProjectContext auth.refresh,
           CacheEvent.clearCachedAuth auth.refresh]
        else []),
       .error (.classified (classifiedErrorOfResp r))) := by
  simp [attemptTokenRefresh, hok]

/-- One loop iteration on a retryable classified error (not
`invalid_grant`-coded) with attempts remaining: count the attempt, record
the backoff sleep, move to the next attempt. -/
theorem refreshLoop_step (env : RefreshEnv) (parts : RefreshParts)
    (auth : OAuthAuthDetails) (fuel attempt : Nat) (tr : RefreshTrace)
    (r : HttpResp) (hfuel : fuel ≠ 0)
    (hout : env.outcomes attempt = .resp r) (hok : r.ok = false)
    (hre : isRetryableError (.classified (classifiedErrorOfResp r)) = true)
    (hnig : codeIs (classifiedErrorOfResp r).code (str "invalid_grant") = false)
    (hlt : attempt < MAX_RETRIES) :
    refreshLoop env parts auth fuel attempt tr =
      refreshLoop env parts auth (fuel - 1) (attempt + 1)
        ⟨tr.attempts + 1,
         tr.sleeps ++ [getRetryDelay attempt (env.jitters attempt)],
         tr.events⟩ := by
  obtain ⟨f, rfl⟩ : ∃ f, fuel = f + 1 := ⟨fuel - 1, by omega⟩
  simp only [refreshLoop]
  rw [hout, attemptTokenRefresh_err r hok, hnig]
  simp [hre, Nat.not_le.mpr hlt]

/-- The final loop iteration once attempts are exhausted on a retryable
classified error: count the attempt and raise the classified error. -/
theorem refreshLoop_exhaust (env : RefreshEnv) (parts : RefreshParts)
    (auth : OAuthAuthDetails) (fuel attempt : Nat) (tr : RefreshTrace)
    (r : HttpResp) (hfuel : fuel ≠ 0) (hge : MAX_RETRIES ≤ attempt)
    (hout : env.outcomes attempt = .resp r) (hok : r.ok = false)
    (hre : isRetryableError (.classified (classifiedErrorOfResp r)) = true)
    (hnig : codeIs (classifiedErrorOfResp r).code (str "invalid_grant") = false) :
    refreshLoop env parts auth fuel attempt tr =
      (⟨tr.attempts + 1, tr.sleeps, tr.events⟩,
       .raised (.classified (classifiedErrorOfResp r))) := by
  obtain ⟨f, rfl⟩ : ∃ f, fuel = f + 1 := ⟨fuel - 1, by omega⟩
  simp only [refreshLoop]
  rw [hout, attemptTokenRefresh_err r hok, hnig]
  simp [hre, hge]

/-- One loop iteration on a non-retryable classified error: raise
immediately, carrying over whatever cache purges the attempt performed. -/
theorem refreshLoop_nonretryable (env : RefreshEnv) (parts : RefreshParts)
    (auth : OAuthAuthDetails) (fuel attempt : Nat) (tr : RefreshTrace)
    (r : HttpResp) (hfuel : fuel ≠ 0)
    (hout : env.outcomes attempt = .resp r) (hok : r.ok = false)
    (hnr : isRetryableError (.classified (classifiedErrorOfResp r)) = false) :
    refreshLoop env parts auth fuel attempt tr =
      (⟨tr.attempts + 1, tr.sleeps,
        tr.events ++
          (if codeIs (classifiedErrorOfResp r).code (str "invalid_grant") then
            [CacheEvent.invalidateProjectContext auth.refresh,
             CacheEvent.clearCachedAuth auth.refresh]
          else [])⟩,
       .raised (.classified (classifiedErrorOfResp r))) := by
  obtain ⟨f, rfl⟩ : ∃ f, fuel = f + 1 := ⟨fuel - 1, by omega⟩
  simp only [refreshLoop]
  rw [hout, attemptTokenRefresh_err r hok]
  simp [hnr]

/-! ## §10  The claims -/

/-- C1 counterexample: the store has no TTL.  There is no positive bound
after which a stored entry stops being returned: a `get` performed any
amount of time after the `set` still returns the entry, so "never returns
an entry older than the TTL" fails for every candidate TTL. -/
theorem c1_counterexample :
    ¬ ∃ ttlMs : ℤ, 0 < ttlMs ∧ ∀ ageMs : ℤ, ttlMs < ageMs →
      storeGetAfter (storeSet [] (str "session") ⟨str "T", Json.str (str "S")⟩)
        ageMs (str "session") = none := by
  rintro ⟨ttl, -, h⟩
  have h1 := h (ttl + 1) (by omega)
  have h2 : storeGetAfter
      (storeSet [] (str "session") ⟨str "T", Json.str (str "S")⟩)
      (ttl + 1) (str "session")
      = some ⟨str "T", Json.str (str "S")⟩ := by
    unfold storeGetAfter storeGet storeSet
    rw [jsMapGet_set, if_pos rfl]
  rw [h1] at h2
  exact Option.noConfusion h2

/-- C1 (amended): the SignatureStore is a plain unbounded map with neither
TTL nor eviction.  Keyed by session key it holds at most one entry per
session, and for every sequence of get/set/has/delete operations the value
under a key is exactly that of the last `set` not followed by a `delete` —
entries persist, regardless of elapsed time, until overwritten or
deleted. -/
theorem c1_amended (ops : List SigOp) (k : JStr) :
    storeGet (applySigOps [] ops) k = lastWriteLookup ops k ∧
    countKey (applySigOps [] ops) k ≤ 1 :=
  ⟨applySigOps_get ops [] k,
   applySigOps_countKey_le ops [] (fun _ => Nat.le_succ 0) k⟩

/-- C2 counterexample: `ThoughtBuffer.set` replaces.  After `set 0 "A"`
then `set 0 "B"`, `get 0` returns `"B"`, not the concatenation `"AB"`. -/
theorem c2_counterexample :
    tbufGet (tbufSet (tbufSet [] 0 (str "A")) 0 (str "B")) 0 = some (str "B") ∧
    tbufGet (tbufSet (tbufSet [] 0 (str "A")) 0 (str "B")) 0
      ≠ some (str "A" ++ str "B") := by
  constructor
  · rfl
  · decide

/-- C2 (amended): `ThoughtBuffer.set` overwrites the text stored at the
index — after two sets at the same index, `get` returns exactly the second
text.  (The append-on-accumulate behaviour lives in the caller,
`cacheThinkingSignaturesFromResponse`, which reads the current text and
sets `current + text`.) -/
theorem c2_amended (buf : TBuf) (i : Nat) (t1 t2 : JStr) :
    tbufGet (tbufSet (tbufSet buf i t1) i t2) i = some t2 := by
  unfold tbufGet tbufSet
  rw [jsMapGet_set, if_pos rfl]

/-- C7 counterexample: the guard `!account.expires` is a JS truthiness
test, so an account whose expiry is set to epoch `0` is treated as having
no expiry: `needsRefresh` and `isExpired` return `false` even though
`expires` is set and both claimed conditions hold. -/
theorem c7_counterexample :
    needsRefresh DEFAULT_PROACTIVE_REFRESH_CONFIG 0 ⟨some 0⟩ = false ∧
    needsRefreshClaim DEFAULT_PROACTIVE_REFRESH_CONFIG 0 ⟨some 0⟩ ∧
    isExpired 5 ⟨some 0⟩ = false ∧
    isExpiredClaim 5 ⟨some 0⟩ := by
  refine ⟨rfl, ⟨0, rfl, by norm_num [DEFAULT_PROACTIVE_REFRESH_CONFIG]⟩, rfl,
    ⟨0, rfl, by norm_num⟩⟩

/-- C7 (amended): `needsRefresh` is true iff `expires` is set, non-zero,
and `now + bufferSeconds*1000 >= expires` (boundary inclusive), and
`isExpired` is true iff `expires` is set, non-zero, and `now >= expires`;
in particular both are false whenever `expires` is unset. -/
theorem c7_amended (cfg : ProactiveRefreshConfig) (now : Int) (a : ManagedAccount) :
    (needsRefresh cfg now a = true ↔
      ∃ e, a.expires = some e ∧ e ≠ 0 ∧ e ≤ now + cfg.bufferSeconds * 1000) ∧
    (isExpired now a = true ↔
      ∃ e, a.expires = some e ∧ e ≠ 0 ∧ e ≤ now) := by
  obtain ⟨eo⟩ := a
  cases eo with
  | none =>
    constructor <;> simp [needsRefresh, isExpired]
  | some e =>
    by_cases he : e = 0
    · subst he
      constructor <;> simp [needsRefresh, isExpired]
    · constructor <;> simp [needsRefresh, isExpired, he]

/-- C9: `getRetryDelay` equals the spec's formula (capped exponential with
`±20%` uniform jitter), is pointwise monotone in the attempt for a fixed
jitter draw (hence non-decreasing in expectation, as the spec-side
expectation `expectedBackoffDelay` also shows), and never exceeds the cap
adjusted for the jitter bound (`2000 · 1.2 = 2400` ms). -/
theorem c9_theorem (a b : Nat) (r : ℚ) (h0 : 0 ≤ r) (h1 : r < 1) (hab : a ≤ b) :
    getRetryDelay a r = backoffDelaySpec a r ∧
    getRetryDelay a r ≤ 2400 ∧
    getRetryDelay a r ≤ getRetryDelay b r ∧
    expectedBackoffDelay a ≤ expectedBackoffDelay b := by
  have hfac0 : (0 : ℚ) ≤ 0.8 + r * 0.4 := by nlinarith
  have hfac2 : (0.8 : ℚ) + r * 0.4 < 1.2 := by nlinarith
  have hcapLe : min (100 * (2 : ℚ) ^ a) 2000 ≤ 2000 := min_le_right _ _
  have hmono : min (100 * (2 : ℚ) ^ a) 2000 ≤ min (100 * (2 : ℚ) ^ b) 2000 := by
    refine min_le_min ?_ le_rfl
    have hp : (2 : ℚ) ^ a ≤ 2 ^ b := pow_le_pow_right₀ (by norm_num) hab
    nlinarith
  refine ⟨?_, ?_, ?_, hmono⟩
  · simp only [getRetryDelay, backoffDelaySpec, INITIAL_RETRY_DELAY_MS,
      MAX_RETRY_DELAY_MS]
    congr 1
    ring
  · have hlt : min (100 * (2 : ℚ) ^ a) 2000 * (0.8 + r * 0.4) < 2400 := by
      calc min (100 * (2 : ℚ) ^ a) 2000 * (0.8 + r * 0.4)
          ≤ 2000 * (0.8 + r * 0.4) := mul_le_mul_of_nonneg_right hcapLe hfac0
        _ < 2400 := by nlinarith
    have := Int.floor_lt.mpr (show min (100 * (2 : ℚ) ^ a) 2000 * (0.8 + r * 0.4)
      < ((2400 : ℤ) : ℚ) by exact_mod_cast hlt)
    simp only [getRetryDelay, INITIAL_RETRY_DELAY_MS, MAX_RETRY_DELAY_MS]
    omega
  · simp only [getRetryDelay, INITIAL_RETRY_DELAY_MS, MAX_RETRY_DELAY_MS]
    exact Int.floor_le_floor (mul_le_mul_of_nonneg_right hmono hfac0)

/-- C5: an `invalid_grant` classification on the first attempt makes
`refreshAccessToken` perform exactly one attempt with no backoff sleep,
purge the project-context cache and the auth cache keyed by the old
refresh blob (in that order), and raise the classified error. -/
theorem c5_theorem (env : RefreshEnv) (auth : OAuthAuthDetails) (r₀ : HttpResp)
    (hparts : jsTruthyOpt (env.parseParts auth.refresh).refreshToken = true)
    (hout : env.outcomes 0 = .resp r₀) (hok : r₀.ok = false)
    (hcode : (parseOAuthErrorPayload r₀.body).1
      = some (Json.str (str "invalid_grant"))) :
    refreshAccessToken env auth =
      (⟨1, [],
        [CacheEvent.invalidateProjectContext auth.refresh,
         CacheEvent.clearCachedAuth auth.refresh]⟩,
       .raised (.classified (classifiedErrorOfResp r₀))) := by
  have hci : codeIs (classifiedErrorOfResp r₀).code (str "invalid_grant") = true := by
    rw [classifiedErrorOfResp_code, hcode]
    rfl
  have hnr : isRetryableError (.classified (classifiedErrorOfResp r₀)) = false := by
    simp [isRetryableError, hci]
  simp only [refreshAccessToken]
  rw [if_neg (fun hcon => hcon hparts)]
  rw [refreshLoop_nonretryable env (env.parseParts auth.refresh) auth
    (MAX_RETRIES + 1) 0 ⟨0, [], []⟩ r₀ (by simp [MAX_RETRIES]) hout hok hnr]
  rw [hci]
  rfl

/-- C5 witness: a concrete 400 `invalid_grant` endpoint. -/
theorem c5_witness :
    jsTruthyOpt (envInvalidGrant.parseParts auth0.refresh).refreshToken = true ∧
    envInvalidGrant.outcomes 0 = .resp respInvalidGrant ∧
    respInvalidGrant.ok = false ∧
    (parseOAuthErrorPayload respInvalidGrant.body).1
      = some (Json.str (str "invalid_grant")) ∧
    refreshAccessToken envInvalidGrant auth0 =
      (⟨1, [],
        [CacheEvent.invalidateProjectContext auth0.refresh,
         CacheEvent.clearCachedAuth auth0.refresh]⟩,
       .raised (.classified (classifiedErrorOfResp respInvalidGrant))) :=
  ⟨rfl, rfl, rfl, rfl, c5_theorem envInvalidGrant auth0 respInvalidGrant rfl rfl rfl rfl⟩

/-- C4 counterexample: an endpoint that answers HTTP 503 on every attempt
— but with a body whose classified code is `invalid_grant` — makes exactly
one attempt, not four: `isRetryableError` checks the classified code
before the status, so not every all-503 endpoint yields 4 attempts. -/
theorem c4_counterexample :
    resp503InvalidGrant.status = 503 ∧
    (refreshAccessToken env503InvalidGrant auth0).1.attempts = 1 ∧
    (refreshAccessToken env503InvalidGrant auth0).1.attempts ≠ 4 := by
  have h : (refreshAccessToken env503InvalidGrant auth0).1.attempts = 1 := rfl
  exact ⟨rfl, h, by omega⟩

/-- C4 (amended): with `MAX_RETRIES = 3` and a token endpoint answering
HTTP 503 on every attempt with a body whose classified code is neither
`invalid_grant` nor `invalid_client`, `refreshAccessToken` invokes
`attemptTokenRefresh` exactly 4 times (attempts 0 through 3), sleeping the
jittered backoff delay between consecutive attempts, and raises the final
classified error. -/
theorem c4_amended (env : RefreshEnv) (auth : OAuthAuthDetails)
    (rs : Nat → HttpResp)
    (hparts : jsTruthyOpt (env.parseParts auth.refresh).refreshToken = true)
    (hout : ∀ n, env.outcomes n = .resp (rs n))
    (hok : ∀ n, (rs n).ok = false)
    (hstatus : ∀ n, (rs n).status = 503)
    (hnig : ∀ n, codeIs (classifiedErrorOfResp (rs n)).code (str "invalid_grant")
      = false)
    (hnic : ∀ n, codeIs (classifiedErrorOfResp (rs n)).code (str "invalid_client")
      = false) :
    refreshAccessToken env auth =
      (⟨4, [getRetryDelay 0 (env.jitters 0), getRetryDelay 1 (env.jitters 1),
            getRetryDelay 2 (env.jitters 2)], []⟩,
       .raised (.classified (classifiedErrorOfResp (rs 3)))) := by
  have hre : ∀ n, isRetryableError (.classified (classifiedErrorOfResp (rs n)))
      = true := by
    intro n
    simp [isRetryableError, hnig n, hnic n, classifiedErrorOfResp_status,
      hstatus n]
  simp only [refreshAccessToken]
  rw [if_neg (fun hcon => hcon hparts)]
  rw [refreshLoop_step env _ auth (MAX_RETRIES + 1) 0 ⟨0, [], []⟩ (rs 0)
    (by simp [MAX_RETRIES]) (hout 0) (hok 0) (hre 0) (hnig 0)
    (by simp [MAX_RETRIES])]
  rw [refreshLoop_step env _ auth (MAX_RETRIES + 1 - 1) 1 _ (rs 1)
    (by simp [MAX_RETRIES]) (hout 1) (hok 1) (hre 1) (hnig 1)
    (by simp [MAX_RETRIES])]
  rw [refreshLoop_step env _ auth (MAX_RETRIES + 1 - 1 - 1) 2 _ (rs 2)
    (by simp [MAX_RETRIES]) (hout 2) (hok 2) (hre 2) (hnig 2)
    (by simp [MAX_RETRIES])]
  rw [refreshLoop_exhaust env _ auth (MAX_RETRIES + 1 - 1 - 1 - 1) 3 _ (rs 3)
    (by simp [MAX_RETRIES]) (by simp [MAX_RETRIES]) (hout 3) (hok 3) (hre 3)
    (hnig 3)]
  rfl

/-- C4 witness: the concrete bare-503 endpoint. -/
theorem c4_witness :
    resp503.status = 503 ∧
    refreshAccessToken env503 auth0 =
      (⟨4, [getRetryDelay 0 (env503.jitters 0), getRetryDelay 1 (env503.jitters 1),
            getRetryDelay 2 (env503.jitters 2)], []⟩,
       .raised (.classified (classifiedErrorOfResp resp503))) :=
  ⟨rfl, c4_amended env503 auth0 (fun _ => resp503) rfl (fun _ => rfl)
    (fun _ => rfl) (fun _ => rfl) (fun _ => rfl) (fun _ => rfl)⟩

/-- A newline-free string splits to itself. -/
theorem splitNl_no_newline (l : JStr) (h : '\n' ∉ l) : splitNl l = [l] := by
  induction l with
  | nil => rfl
  | cons c rest ih =>
    have hc : ¬ c = '\n' := fun e => h (e ▸ List.mem_cons_self c rest)
    have hr : '\n' ∉ rest := fun m => h (List.mem_cons_of_mem c m)
    simp only [splitNl]
    rw [if_neg hc, ih hr]

/-- Joining a single segment is the segment. -/
theorem intercalate_single (sep x : JStr) : List.intercalate sep [x] = x := by
  simp [List.intercalate]

/-- C8: `transformSseLine` passes every non-transformable line through
unchanged, with the state untouched: lines not starting with the `data:`
marker, lines with an empty payload after the marker, payloads that fail
to parse as JSON (which never raises out of the transform), and payloads
without a `response` field. -/
theorem c8_theorem (line : JStr) (cbs : StreamingCallbacks)
    (opts : StreamingOptions) (st : InnerState)
    (h : startsWithData line = false ∨
         jsTrim (line.drop 5) = [] ∨
         jsonParse (jsTrim (line.drop 5)) = none ∨
         (∃ j, jsonParse (jsTrim (line.drop 5)) = some j ∧
            getFieldJ j (str "response") = none)) :
    transformSseLine line cbs opts st = (st, line) := by
  rcases h with h | h | h | ⟨j, hj, hr⟩
  · simp [transformSseLine, h]
  · by_cases hs : startsWithData line
    · simp [transformSseLine, hs, h]
    · simp [transformSseLine, hs]
  · by_cases hs : startsWithData line
    · by_cases he : jsTrim (line.drop 5) = []
      · simp [transformSseLine, hs, he]
      · simp [transformSseLine, hs, he, h]
    · simp [transformSseLine, hs]
  · by_cases hs : startsWithData line
    · by_cases he : jsTrim (line.drop 5) = []
      · simp [transformSseLine, hs, he]
      · simp [transformSseLine, hs, he, hj, hr]
    · simp [transformSseLine, hs]

/-- C8 witness: a line without the event marker. -/
theorem c8_witness :
    (startsWithData (str "hello") = false ∨
     jsTrim ((str "hello").drop 5) = [] ∨
     jsonParse (jsTrim ((str "hello").drop 5)) = none ∨
     (∃ j, jsonParse (jsTrim ((str "hello").drop 5)) = some j ∧
        getFieldJ j (str "response") = none)) ∧
    transformSseLine (str "hello") ⟨false, none, none⟩ ⟨false, [], []⟩
      ⟨[], [], false, []⟩ = (⟨[], [], false, []⟩, str "hello") :=
  ⟨Or.inl (by decide),
   c8_theorem (str "hello") ⟨false, none, none⟩ ⟨false, [], []⟩
     ⟨[], [], false, []⟩ (Or.inl (by decide))⟩

/-- C10: on a single newline-free line, with signature caching disabled
and no debug text configured, `transformSseLine` emits exactly what
`transformStreamingPayload` emits for the same `transformThinkingParts`
callback, and leaves the state untouched — the two transform paths are
equivalent when caching and debug injection are off. -/
theorem c10_theorem (line : JStr) (h : '\n' ∉ line) (cbs : StreamingCallbacks)
    (sk : JStr) (st : InnerState) :
    (transformSseLine line cbs ⟨false, sk, []⟩ st).2
      = transformStreamingPayload line cbs.transformThinkingParts ∧
    (transformSseLine line cbs ⟨false, sk, []⟩ st).1 = st := by
  unfold transformStreamingPayload
  rw [splitNl_no_newline line h, List.map_cons, List.map_nil,
    intercalate_single]
  by_cases hs : startsWithData line
  · by_cases he : jsTrim (line.drop 5) = []
    · simp [transformSseLine, transformPayloadLine, hs, he]
    · cases hp : jsonParse (jsTrim (line.drop 5)) with
      | none => simp [transformSseLine, transformPayloadLine, hs, he, hp]
      | some j =>
        cases hr : getFieldJ j (str "response") with
        | none => simp [transformSseLine, transformPayloadLine, hs, he, hp, hr]
        | some respJ =>
          simp [transformSseLine, transformPayloadLine, hs, he, hp, hr]
  · simp [transformSseLine, transformPayloadLine, hs]

/-- C10 witness: a one-character line. -/
theorem c10_witness :
    '\n' ∉ str "x" ∧
    ((transformSseLine (str "x") ⟨false, none, none⟩ ⟨false, [], []⟩
        ⟨[], [], false, []⟩).2
      = transformStreamingPayload (str "x")
          (StreamingCallbacks.transformThinkingParts ⟨false, none, none⟩) ∧
     (transformSseLine (str "x") ⟨false, none, none⟩ ⟨false, [], []⟩
        ⟨[], [], false, []⟩).1 = ⟨[], [], false, []⟩) :=
  ⟨by decide,
   c10_theorem (str "x") (by decide) ⟨false, none, none⟩ [] ⟨[], [], false, []⟩⟩

/-- The thought-accumulation phase touches only the thought buffer. -/
theorem processPartText_frame (idx : Nat) (st : InnerState) (p : Json) :
    (processPartText idx st p).store = st.store ∧
    (processPartText idx st p).events = st.events := by
  refine ⟨?_, ?_⟩ <;>
  · simp only [processPartText]
    split_ifs <;> rfl

/-- A part whose candidate has no accumulated text never stores: the
signature branch of `processPart` requires non-empty accumulated text. -/
theorem processPart_empty_text_frame (k : JStr) (hasCb : Bool) (idx : Nat)
    (st : InnerState) (p : Json)
    (h : (tbufGet (processPartText idx st p).tbuf idx).getD [] = []) :
    (processPart k hasCb idx st p).store = st.store ∧
    (processPart k hasCb idx st p).events = st.events := by
  have hpp : processPart k hasCb idx st p = processPartText idx st p := by
    simp only [processPart]
    split_ifs with h1 h2 h3
    all_goals first | rfl | exact absurd h h2
  rw [hpp]
  exact processPartText_frame idx st p

/-- C6: processing the two-candidate scenario response (candidate 0 thinks
"A" then "B" then signs; candidate 1 has no thinking) leaves `"AB"` in the
thought buffer at index 0 and nothing at index 1, stores
`{text: "AB", signature}` under the session key, fires exactly one
`onCacheSignature` call, and raises nothing; in general a
signature-bearing part stores only when the accumulated text of its
candidate is non-empty; and scanning reaches every candidate — thinking
carried entirely by candidate 1 is cached just the same. -/
theorem c6_theorem (key sig : JStr) (store₀ : SigStore) (evs₀ : List SigEvent)
    (inj : Bool) (hsig : sig ≠ []) :
    (tbufGet (cacheThinkingSignaturesFromResponse (c6Response sig) key true
        ⟨store₀, [], inj, evs₀⟩).1.tbuf 0 = some (str "AB") ∧
     tbufGet (cacheThinkingSignaturesFromResponse (c6Response sig) key true
        ⟨store₀, [], inj, evs₀⟩).1.tbuf 1 = none ∧
     storeGet (cacheThinkingSignaturesFromResponse (c6Response sig) key true
        ⟨store₀, [], inj, evs₀⟩).1.store key = some ⟨str "AB", Json.str sig⟩ ∧
     (cacheThinkingSignaturesFromResponse (c6Response sig) key true
        ⟨store₀, [], inj, evs₀⟩).1.events
        = evs₀ ++ [⟨key, str "AB", Json.str sig⟩] ∧
     (cacheThinkingSignaturesFromResponse (c6Response sig) key true
        ⟨store₀, [], inj, evs₀⟩).2 = false) ∧
    (∀ (k : JStr) (hasCb : Bool) (idx : Nat) (st : InnerState) (p : Json),
      (tbufGet (processPartText idx st p).tbuf idx).getD [] = [] →
      (processPart k hasCb idx st p).store = st.store ∧
      (processPart k hasCb idx st p).events = st.events) ∧
    (tbufGet (cacheThinkingSignaturesFromResponse (c6ResponseSecond sig) key true
        ⟨store₀, [], inj, evs₀⟩).1.tbuf 1 = some (str "C") ∧
     storeGet (cacheThinkingSignaturesFromResponse (c6ResponseSecond sig) key true
        ⟨store₀, [], inj, evs₀⟩).1.store key = some ⟨str "C", Json.str sig⟩ ∧
     (cacheThinkingSignaturesFromResponse (c6ResponseSecond sig) key true
        ⟨store₀, [], inj, evs₀⟩).1.events
        = evs₀ ++ [⟨key, str "C", Json.str sig⟩]) := by
  have hrun : cacheThinkingSignaturesFromResponse (c6Response sig) key true
      ⟨store₀, [], inj, evs₀⟩
      = (⟨storeSet store₀ key ⟨str "AB", Json.str sig⟩, [(0, str "AB")], inj,
          evs₀ ++ [⟨key, str "AB", Json.str sig⟩]⟩, false) := by
    simp +decide [cacheThinkingSignaturesFromResponse, c6Response, candJ,
      thoughtPartJ, sigPartJ, processCandidates, processCandidate,
      processParts, processPart, processPartText, isThoughtPart,
      partThoughtText, getFieldJ, getFieldJD, jsMapGet, jsOr, jsTruthy,
      jsTruthyOpt, toStringJS, tbufGet, tbufSet, jsMapSet, List.enum, hsig,
      (show str "A" ++ str "B" = str "AB" from rfl)]
  have hrun2 : cacheThinkingSignaturesFromResponse (c6ResponseSecond sig) key true
      ⟨store₀, [], inj, evs₀⟩
      = (⟨storeSet store₀ key ⟨str "C", Json.str sig⟩, [(1, str "C")], inj,
          evs₀ ++ [⟨key, str "C", Json.str sig⟩]⟩, false) := by
    simp +decide [cacheThinkingSignaturesFromResponse, c6ResponseSecond, candJ,
      thoughtPartJ, sigPartJ, processCandidates, processCandidate,
      processParts, processPart, processPartText, isThoughtPart,
      partThoughtText, getFieldJ, getFieldJD, jsMapGet, jsOr, jsTruthy,
      jsTruthyOpt, toStringJS, tbufGet, tbufSet, jsMapSet, List.enum, hsig]
  refine ⟨⟨?_, ?_, ?_, ?_, ?_⟩, processPart_empty_text_frame, ?_, ?_, ?_⟩
  · rw [hrun]
    rfl
  · rw [hrun]
    rfl
  · rw [hrun]
    simp [storeGet, storeSet, jsMapGet_set]
  · rw [hrun]
  · rw [hrun]
  · rw [hrun2]
    rfl
  · rw [hrun2]
    simp [storeGet, storeSet, jsMapGet_set]
  · rw [hrun2]

/-- C6 witness: concrete session key and signature from a fresh state. -/
theorem c6_witness :
    (str "S" : JStr) ≠ [] ∧
    tbufGet (cacheThinkingSignaturesFromResponse (c6Response (str "S"))
        (str "K") true ⟨[], [], false, []⟩).1.tbuf 0 = some (str "AB") ∧
    storeGet (cacheThinkingSignaturesFromResponse (c6Response (str "S"))
        (str "K") true ⟨[], [], false, []⟩).1.store (str "K")
      = some ⟨str "AB", Json.str (str "S")⟩ ∧
    (cacheThinkingSignaturesFromResponse (c6Response (str "S")) (str "K") true
        ⟨[], [], false, []⟩).1.events
      = [] ++ [⟨str "K", str "AB", Json.str (str "S")⟩] := by
  have h := c6_theorem (str "K") (str "S") [] [] false (by decide)
  exact ⟨by decide, h.1.1, h.1.2.2.1, h.1.2.2.2.1⟩

/-- C9 witness at attempts 1 ≤ 2, jitter draw 1/2. -/
theorem c9_witness :
    (0 : ℚ) ≤ 1 / 2 ∧ (1 / 2 : ℚ) < 1 ∧ (1 : Nat) ≤ 2 ∧
    (getRetryDelay 1 (1 / 2) = backoffDelaySpec 1 (1 / 2) ∧
     getRetryDelay 1 (1 / 2) ≤ 2400 ∧
     getRetryDelay 1 (1 / 2) ≤ getRetryDelay 2 (1 / 2) ∧
     expectedBackoffDelay 1 ≤ expectedBackoffDelay 2) :=
  ⟨by norm_num, by norm_num, by norm_num,
   c9_theorem 1 2 (1 / 2) (by norm_num) (by norm_num) (by norm_num)⟩

/-! ## §11  UTF-8 and stream lemmas for C3 -/

/-- Every scalar value is below `0x110000`. -/
theorem char_toNat_lt (c : Char) : c.toNat < 1114112 := by
  rcases c.valid with h | ⟨_, h2⟩
  · exact lt_trans h (by norm_num)
  · exact h2

/-- The encoding of one scalar: a lead byte announcing exactly the
sequence's length, and `utf8DecOne` inverting the encoding. -/
theorem utf8EncodeChar_spec (c : Char) :
    ∃ b t, utf8EncodeChar c = b :: t ∧ utf8LeadLen b = t.length + 1 ∧
      utf8DecOne (b :: t) = c := by
  have hv := char_toNat_lt c
  unfold utf8EncodeChar
  by_cases h1 : c.toNat < 128
  · refine ⟨c.toNat, [], ?_, ?_, ?_⟩
    · rw [if_pos h1]
    · unfold utf8LeadLen
      rw [if_pos h1]
      rfl
    · simp only [utf8DecOne]
      rw [if_pos h1, Char.ofNat_toNat]
  · by_cases h2 : c.toNat < 2048
    · refine ⟨192 + c.toNat / 64, [128 + c.toNat % 64], ?_, ?_, ?_⟩
      · rw [if_neg h1, if_pos h2]
      · unfold utf8LeadLen
        rw [if_neg (by omega), if_pos (by omega)]
        rfl
      · simp only [utf8DecOne]
        have : (192 + c.toNat / 64 - 192) * 64 + (128 + c.toNat % 64 - 128)
            = c.toNat := by omega
        rw [this, Char.ofNat_toNat]
    · by_cases h3 : c.toNat < 65536
      · refine ⟨224 + c.toNat / 4096,
          [128 + c.toNat / 64 % 64, 128 + c.toNat % 64], ?_, ?_, ?_⟩
        · rw [if_neg h1, if_neg h2, if_pos h3]
        · unfold utf8LeadLen
          rw [if_neg (by omega), if_neg (by omega), if_pos (by omega)]
          rfl
        · simp only [utf8DecOne]
          have : ((224 + c.toNat / 4096 - 224) * 64 + (128 + c.toNat / 64 % 64 - 128))
              * 64 + (128 + c.toNat % 64 - 128) = c.toNat := by omega
          rw [this, Char.ofNat_toNat]
      · refine ⟨240 + c.toNat / 262144,
          [128 + c.toNat / 4096 % 64, 128 + c.toNat / 64 % 64, 128 + c.toNat % 64],
          ?_, ?_, ?_⟩
        · rw [if_neg h1, if_neg h2, if_neg h3]
        · unfold utf8LeadLen
          rw [if_neg (by omega), if_neg (by omega), if_neg (by omega)]
          rfl
        · simp only [utf8DecOne]
          have : (((240 + c.toNat / 262144 - 240) * 64
                + (128 + c.toNat / 4096 % 64 - 128)) * 64
                + (128 + c.toNat / 64 % 64 - 128)) * 64
                + (128 + c.toNat % 64 - 128) = c.toNat := by omega
          rw [this, Char.ofNat_toNat]

/-- `utf8Encode` distributes over cons. -/
theorem utf8Encode_cons (c : Char) (s : JStr) :
    utf8Encode (c :: s) = utf8EncodeChar c ++ utf8Encode s := by
  simp [utf8Encode]

/-- The streaming decoder consumes one complete leading scalar and
continues. -/
theorem utf8DecodeLoop_complete (b : Nat) (t x : List Nat)
    (hlen : utf8LeadLen b = t.length + 1) :
    utf8DecodeLoop ((b :: t) ++ x)
      = (utf8DecOne (b :: t) :: (utf8DecodeLoop x).1, (utf8DecodeLoop x).2) := by
  rw [List.cons_append]
  rw [utf8DecodeLoop]
  simp only [hlen]
  rw [if_neg (by simp only [List.length_append]; omega)]
  have h1 : (t ++ x).drop (t.length + 1 - 1) = x := by
    simp [List.drop_left]
  have h2 : (t ++ x).take (t.length + 1 - 1) = t := by
    simp [List.take_left]
  rw [h1, h2]

/-- On a strict prefix of one scalar's bytes the streaming decoder emits
nothing and withholds the prefix. -/
theorem utf8DecodeLoop_partial (b : Nat) (t : List Nat) (k : Nat)
    (hlen : utf8LeadLen b = t.length + 1) (hk : k < t.length + 1) :
    utf8DecodeLoop ((b :: t).take k) = ([], (b :: t).take k) := by
  cases k with
  | zero =>
    rw [List.take_zero]
    simp only [utf8DecodeLoop]
  | succ j =>
    rw [List.take_succ_cons]
    rw [utf8DecodeLoop]
    simp only [hlen]
    rw [if_pos (by simp only [List.length_take]; omega)]

/-- Decoding inverts encoding, leaving no pending bytes. -/
theorem utf8_roundtrip (s : JStr) : utf8DecodeLoop (utf8Encode s) = (s, []) := by
  induction s with
  | nil => simp [utf8Encode, utf8DecodeLoop]
  | cons c s' ih =>
    obtain ⟨b, t, henc, hlen, hdec⟩ := utf8EncodeChar_spec c
    rw [utf8Encode_cons, henc, utf8DecodeLoop_complete b t _ hlen, ih, hdec]

/-- Splitting a valid encoding anywhere: the text decoded from the first
chunk concatenated with the text decoded from (pending bytes ++ second
chunk) is the whole string, and no bytes remain pending. -/
theorem utf8_split (s : JStr) (k : Nat) :
    (utf8DecodeLoop ((utf8Encode s).take k)).1 ++
      (utf8DecodeLoop ((utf8DecodeLoop ((utf8Encode s).take k)).2 ++
        (utf8Encode s).drop k)).1 = s ∧
    (utf8DecodeLoop ((utf8DecodeLoop ((utf8Encode s).take k)).2 ++
      (utf8Encode s).drop k)).2 = [] := by
  induction s generalizing k with
  | nil =>
    simp [utf8Encode, utf8DecodeLoop]
  | cons c s' ih =>
    obtain ⟨b, t, henc, hlen, hdec⟩ := utf8EncodeChar_spec c
    have hm : (utf8EncodeChar c).length = t.length + 1 := by rw [henc]; rfl
    by_cases hk : k ≤ t.length
    · -- the split falls inside the first scalar
      have htake : (utf8Encode (c :: s')).take k = (b :: t).take k := by
        rw [utf8Encode_cons, List.take_append_eq_append_take, henc]
        rw [show k - (b :: t).length = 0 by simp; omega]
        simp
      have hdrop : (utf8Encode (c :: s')).drop k
          = (b :: t).drop k ++ utf8Encode s' := by
        rw [utf8Encode_cons, List.drop_append_eq_append_drop, henc]
        rw [show k - (b :: t).length = 0 by simp; omega]
        simp
      rw [htake, hdrop, utf8DecodeLoop_partial b t k hlen (by omega)]
      rw [show (([], (b :: t).take k) : JStr × List Nat).2 = (b :: t).take k from rfl]
      rw [← List.append_assoc, List.take_append_drop]
      rw [show (b :: t) ++ utf8Encode s' = utf8Encode (c :: s') by
        rw [utf8Encode_cons, henc]]
      rw [utf8_roundtrip]
      exact ⟨rfl, rfl⟩
    · -- the first scalar is wholly inside the first chunk
      have htake : (utf8Encode (c :: s')).take k
          = (b :: t) ++ (utf8Encode s').take (k - (t.length + 1)) := by
        rw [utf8Encode_cons, List.take_append_eq_append_take, henc]
        rw [List.take_of_length_le (by simp; omega)]
        rfl
      have hdrop : (utf8Encode (c :: s')).drop k
          = (utf8Encode s').drop (k - (t.length + 1)) := by
        rw [utf8Encode_cons, List.drop_append_eq_append_drop, henc]
        rw [List.drop_eq_nil_of_le (by simp; omega)]
        rfl
      obtain ⟨ih1, ih2⟩ := ih (k - (t.length + 1))
      rw [htake, hdrop, utf8DecodeLoop_complete b t _ hlen]
      constructor
      · rw [List.cons_append]
        rw [show ((utf8DecOne (b :: t) :: (utf8DecodeLoop ((utf8Encode s').take
            (k - (t.length + 1)))).1, (utf8DecodeLoop ((utf8Encode s').take
            (k - (t.length + 1)))).2) : JStr × List Nat).2
          = (utf8DecodeLoop ((utf8Encode s').take (k - (t.length + 1)))).2 from rfl]
        rw [ih1, hdec]
      · rw [show ((utf8DecOne (b :: t) :: (utf8DecodeLoop ((utf8Encode s').take
            (k - (t.length + 1)))).1, (utf8DecodeLoop ((utf8Encode s').take
            (k - (t.length + 1)))).2) : JStr × List Nat).2
          = (utf8DecodeLoop ((utf8Encode s').take (k - (t.length + 1)))).2 from rfl]
        rw [ih2]

/-- Splitting a newline-terminated, otherwise newline-free string. -/
theorem splitNl_append_nl (line : JStr) (h : '\n' ∉ line) :
    splitNl (line ++ ['\n']) = [line, []] := by
  induction line with
  | nil => rfl
  | cons c rest ih =>
    have hc : ¬ c = '\n' := fun e => h (e ▸ List.mem_cons_self c rest)
    have hr : '\n' ∉ rest := fun m => h (List.mem_cons_of_mem c m)
    rw [List.cons_append, splitNl, if_neg hc, ih hr]

/-- A chunk whose decoded text completes no line: everything is carried
over, nothing is emitted. -/
theorem feedChunk_carry {σ : Type} (F : σ → JStr → σ × JStr) (p : List Nat)
    (buf : JStr) (i : σ) (chunk : List Nat) (t : JStr) (p' : List Nat) (u : JStr)
    (hdec : utf8DecodeLoop (p ++ chunk) = (t, p'))
    (hsp : splitNl (buf ++ t) = [u]) :
    feedChunk F ⟨p, buf, i⟩ chunk = (⟨p', u, i⟩, []) := by
  simp [feedChunk, hdec, hsp]

/-- A chunk whose decoded text completes exactly one line with nothing
after the newline: the line goes through the per-line transform and is
emitted with its newline; the carry-over buffer empties. -/
theorem feedChunk_one_line {σ : Type} (F : σ → JStr → σ × JStr) (p : List Nat)
    (buf : JStr) (i : σ) (chunk : List Nat) (t : JStr) (p' : List Nat)
    (line : JStr)
    (hdec : utf8DecodeLoop (p ++ chunk) = (t, p'))
    (hsp : splitNl (buf ++ t) = [line, []]) :
    feedChunk F ⟨p, buf, i⟩ chunk
      = (⟨p', [], (F i line).1⟩, utf8Encode ((F i line).2 ++ ['\n'])) := by
  simp [feedChunk, hdec, hsp, List.getLastD]

/-- Flushing an empty transformer emits nothing. -/
theorem flushStream_nil {σ : Type} (F : σ → JStr → σ × JStr) (i : σ) :
    flushStream F ⟨[], [], i⟩ = (i, []) := by
  simp [flushStream, utf8DecodeEnd]

/-- Chunk-boundary invariance, generic in the per-line transform: feeding
the bytes of a newline-terminated line split at any byte position — even
inside a multi-byte character — and flushing produces the same bytes as
feeding them whole. -/
theorem runStream_split {σ : Type} (F : σ → JStr → σ × JStr) (i0 : σ)
    (line : JStr) (h : '\n' ∉ line) (k : Nat) :
    runStream F i0 [(utf8Encode (line ++ ['\n'])).take k,
      (utf8Encode (line ++ ['\n'])).drop k]
      = runStream F i0 [utf8Encode (line ++ ['\n'])] := by
  have hsplit := utf8_split (line ++ ['\n']) k
  rcases hE1 : utf8DecodeLoop ((utf8Encode (line ++ ['\n'])).take k) with ⟨t1, p1⟩
  rw [hE1] at hsplit
  rcases hE2 : utf8DecodeLoop (p1 ++ (utf8Encode (line ++ ['\n'])).drop k)
    with ⟨t2, p2⟩
  rw [hE2] at hsplit
  simp only at hsplit
  obtain ⟨hcat, hnil⟩ := hsplit
  subst hnil
  have hsplitfull : splitNl (line ++ ['\n']) = [line, []] := splitNl_append_nl line h
  have hround : utf8DecodeLoop ([] ++ utf8Encode (line ++ ['\n']))
      = (line ++ ['\n'], []) := by
    rw [List.nil_append]
    exact utf8_roundtrip _
  have hone : runStream F i0 [utf8Encode (line ++ ['\n'])]
      = utf8Encode ((F i0 line).2 ++ ['\n']) := by
    simp only [runStream, List.foldl_cons, List.foldl_nil]
    rw [feedChunk_one_line F [] [] i0 _ (line ++ ['\n']) [] line hround
      (by rw [List.nil_append]; exact hsplitfull)]
    rw [flushStream_nil]
    simp
  rw [hone]
  by_cases ht2 : t2 = []
  · -- the first chunk already contained the entire line
    subst ht2
    have ht1 : t1 = line ++ ['\n'] := by rw [← hcat, List.append_nil]
    simp only [runStream, List.foldl_cons, List.foldl_nil]
    rw [feedChunk_one_line F [] [] i0 _ t1 p1 line
      (by rw [List.nil_append]; exact hE1)
      (by rw [List.nil_append, ht1]; exact hsplitfull)]
    rw [feedChunk_carry F p1 [] ((F i0 line).1) _ [] [] []
      (by rw [hE2]) rfl]
    rw [flushStream_nil]
    simp
  · -- the line is completed only by the second chunk
    have hlen1 : t1.length ≤ line.length := by
      have hl := congrArg List.length hcat
      simp only [List.length_append, List.length_cons, List.length_nil] at hl
      have h2pos : t2.length ≠ 0 := fun hz => ht2 (List.length_eq_zero.mp hz)
      omega
    have ht1take : t1 = line.take t1.length := by
      have h1 : (line ++ ['\n']).take t1.length = t1 := by
        rw [← hcat, List.take_left]
      have h2 : (line ++ ['\n']).take t1.length = line.take t1.length := by
        rw [List.take_append_eq_append_take,
          show t1.length - line.length = 0 by omega, List.take_zero,
          List.append_nil]
      exact h1.symm.trans h2
    have hnonl1 : '\n' ∉ t1 := by
      rw [ht1take]
      exact fun hm => h (List.take_subset _ _ hm)
    simp only [runStream, List.foldl_cons, List.foldl_nil]
    rw [feedChunk_carry F [] [] i0 _ t1 p1 t1
      (by rw [List.nil_append]; exact hE1)
      (by rw [List.nil_append]; exact splitNl_no_newline _ hnonl1)]
    rw [feedChunk_one_line F p1 t1 i0 _ t2 [] line hE2
      (by rw [hcat]; exact hsplitfull)]
    rw [flushStream_nil]
    simp

/-- C3: for every newline-free line and every byte position `k` — including
positions inside a multi-byte UTF-8 character — feeding the serialized
bytes of the newline-terminated line to `createStreamingTransformer` as two
chunks split at `k` and flushing yields byte-for-byte the same output as
feeding them as one chunk; in particular this holds for every transformable
line. -/
theorem c3_theorem (store₀ : SigStore) (cbs : StreamingCallbacks)
    (opts : StreamingOptions) (line : JStr) (h : '\n' ∉ line) (k : Nat) :
    createStreamingTransformerRun store₀ cbs opts
        [(utf8Encode (line ++ ['\n'])).take k,
         (utf8Encode (line ++ ['\n'])).drop k]
      = createStreamingTransformerRun store₀ cbs opts
          [utf8Encode (line ++ ['\n'])] :=
  runStream_split (fun st l => transformSseLine l cbs opts st)
    ⟨store₀, [], false, []⟩ line h k

/-- C3 witness: a transformable line split mid-way (the payload carries a
two-byte UTF-8 character, and `k = 10` splits the byte stream inside the
serialized JSON). -/
theorem c3_witness :
    '\n' ∉ str "data: \x7b\"response\": \x7b\"k\":\"é\"\x7d\x7d" ∧
    createStreamingTransformerRun [] ⟨false, none, none⟩ ⟨false, [], []⟩
        [(utf8Encode (str "data: \x7b\"response\": \x7b\"k\":\"é\"\x7d\x7d"
            ++ ['\n'])).take 10,
         (utf8Encode (str "data: \x7b\"response\": \x7b\"k\":\"é\"\x7d\x7d"
            ++ ['\n'])).drop 10]
      = createStreamingTransformerRun [] ⟨false, none, none⟩ ⟨false, [], []⟩
          [utf8Encode (str "data: \x7b\"response\": \x7b\"k\":\"é\"\x7d\x7d"
            ++ ['\n'])] :=
  ⟨by decide,
   c3_theorem [] ⟨false, none, none⟩ ⟨false, [], []⟩
     (str "data: \x7b\"response\": \x7b\"k\":\"é\"\x7d\x7d") (by decide) 10⟩

end Antigravity
